import Mathlib

/-!
Verification development for the aggregation core of a newsletter
pipeline (`src/filter.py`): fuzzy title matching via Python's
`difflib.SequenceMatcher`, cross-source deduplication, keyword relevance
scoring, topic classification and section assignment.

Modelling conventions.  Python floats are modelled as rationals (every
constant in the scoring code is a short decimal literal).  Python
strings are modelled as `String` / `List Char`, with the ASCII fragment
of Python's case folding and whitespace classes (the repository's data
is ASCII).  Python dicts with optional keys are modelled as structures
with `Option` fields; `dict.get(k, d)` becomes `Option.getD`; a bare
subscript `p[k]`, which can raise `KeyError`, is modelled in an
`Except` monad where the claim in question is about exceptions.
`list.sort(key=..., reverse=True)` is a stable descending sort and is
modelled by `List.mergeSort` (stable) with a `≥`-style comparison on
the extracted key.
-/

/-- ASCII fragment of the whitespace class used by `str.strip` and the
regex class `\s` in `normalize_title`. -/
def pySpace (c : Char) : Bool :=
  c == ' ' || c == '\t' || c == '\n' || c == '\r' || c == '\x0b' || c == '\x0c'

/-- Characters kept by the substitution `re.sub(r"[^a-z0-9\s]", "", t)`
(the title has already been lowercased at this point). -/
def keepChar (c : Char) : Bool :=
  ('a' ≤ c && c ≤ 'z') || ('0' ≤ c && c ≤ '9') || pySpace c

/-- Collapse every maximal whitespace run to one space
(`re.sub(r"\s+", " ", t)`). -/
def collapseAux : Bool → List Char → List Char
  | _, [] => []
  | inRun, c :: cs =>
    if pySpace c then
      if inRun then collapseAux true cs else ' ' :: collapseAux true cs
    else c :: collapseAux false cs

def collapseWs (l : List Char) : List Char := collapseAux false l

/-- `str.strip()` (ASCII whitespace fragment). -/
def pyStrip (l : List Char) : List Char :=
  ((l.dropWhile pySpace).reverse.dropWhile pySpace).reverse

/-- `str.lower()` (ASCII fragment, matching `Char.toLower`). -/
def pyLower (l : List Char) : List Char := l.map Char.toLower

/-- `str.lower()` at `String` level. -/
def pyLowerS (s : String) : String := ⟨pyLower s.data⟩

/-- `normalize_title` from `src/filter.py`: lowercase, strip, delete
every character outside `[a-z0-9\s]`, collapse whitespace runs. -/
def normalize_title (title : String) : String :=
  ⟨collapseWs ((pyStrip (pyLower title.data)).filter keepChar)⟩

/-! ### difflib.SequenceMatcher(None, a, b)

The matcher is always constructed with `isjunk = None`, so `bjunk` is
empty: every `isbjunk(...)` test in `find_longest_match` is constantly
false, and the two junk extension loops at its end never execute (they
are elided below).  The autojunk purge of "popular" elements from `b2j`
(`__chain_b`) is modelled in full. -/

/-- `b2j` before the autojunk purge: ascending list of the positions of
`c` in `b` (`__chain_b`). -/
def posList (b : List Char) (c : Char) : List Nat :=
  (List.range b.length).filter (fun j => b.get? j == some c)

/-- Autojunk: with `isjunk = None`, an element is purged from `b2j` iff
`len(b) >= 200` and it occurs more than `len(b) // 100 + 1` times. -/
def isPopular (b : List Char) (c : Char) : Bool :=
  decide (200 ≤ b.length) && decide (b.length / 100 + 1 < (posList b c).length)

/-- The purged `b2j` mapping of `__chain_b` (absent keys read as `[]`). -/
def b2jMap (b : List Char) (c : Char) : List Nat :=
  if isPopular b c then [] else posList b c

/-- Inner loop of `find_longest_match` over `b2j.get(a[i], [])`, with
the `j < blo` skip and the `j >= bhi` break.  `prev` is the previous
row's `j2len` dict (absent keys read as `0`, as in `j2len.get(j-1, 0)`;
`j = 0` corresponds to the lookup of key `-1`, which is never present),
`new` is the row being built.  Returns the finished row and the updated
`(besti, bestj, bestsize)`.  `i + 1 - k` is Python's `i-k+1`; the
bounds lemmas below show `k ≤ i + 1`, so `Nat` truncation never occurs
on reachable states. -/
def flmRow (i blo bhi : Nat) (prev : Nat → Nat) :
    List Nat → (Nat → Nat) → Nat × Nat × Nat → (Nat → Nat) × (Nat × Nat × Nat)
  | [], new, best => (new, best)
  | j :: js, new, best =>
    if j < blo then flmRow i blo bhi prev js new best
    else if bhi ≤ j then (new, best)
    else
      let k := (if j = 0 then 0 else prev (j - 1)) + 1
      let new' : Nat → Nat := fun j' => if j' = j then k else new j'
      let best' := if best.2.2 < k then (i + 1 - k, j + 1 - k, k) else best
      flmRow i blo bhi prev js new' best'

/-- The row loop `for i in range(alo, ahi)` of `find_longest_match`. -/
def flmMain (a : List Char) (b2jf : Char → List Nat) (blo bhi : Nat) :
    List Nat → (Nat → Nat) → Nat × Nat × Nat → Nat × Nat × Nat
  | [], _, best => best
  | i :: rows, prev, best =>
    let js := match a.get? i with
      | some c => b2jf c
      | none => []
    let st := flmRow i blo bhi prev js (fun _ => 0) best
    flmMain a b2jf blo bhi rows st.1 st.2

/-- `a[i] == b[j]` for the extension loops; out-of-range positions
(unreachable in the algorithm's calls) compare unequal. -/
def chEq (a b : List Char) (i j : Nat) : Bool :=
  match a.get? i, b.get? j with
  | some x, some y => x == y
  | _, _ => false

/-- Backward extension loop of `find_longest_match` (the `isbjunk` test
is constantly false, see above). -/
def extendLoF (a b : List Char) (alo blo : Nat) : Nat → Nat × Nat × Nat → Nat × Nat × Nat
  | 0, t => t
  | fuel + 1, (bi, bj, bs) =>
    if alo < bi ∧ blo < bj ∧ chEq a b (bi - 1) (bj - 1) then
      extendLoF a b alo blo fuel (bi - 1, bj - 1, bs + 1)
    else (bi, bj, bs)

/-- The loop decrements `besti` each iteration, so `besti` itself
bounds the iteration count: with fuel `t.1` the base case is reached
only with `besti = 0`, where the `besti > alo` guard is false anyway —
the fuel never cuts the loop short. -/
def extendLo (a b : List Char) (alo blo : Nat) (t : Nat × Nat × Nat) : Nat × Nat × Nat :=
  extendLoF a b alo blo t.1 t

/-- Forward extension loop of `find_longest_match`. -/
def extendHiF (a b : List Char) (ahi bhi : Nat) : Nat → Nat × Nat × Nat → Nat × Nat × Nat
  | 0, t => t
  | fuel + 1, (bi, bj, bs) =>
    if bi + bs < ahi ∧ bj + bs < bhi ∧ chEq a b (bi + bs) (bj + bs) then
      extendHiF a b ahi bhi fuel (bi, bj, bs + 1)
    else (bi, bj, bs)

/-- The loop increments `bestsize` while `besti + bestsize < ahi`, so
`ahi - (besti + bestsize)` bounds the iteration count: the base case is
reached only when the first guard is already false. -/
def extendHi (a b : List Char) (ahi bhi : Nat) (t : Nat × Nat × Nat) : Nat × Nat × Nat :=
  extendHiF a b ahi bhi (ahi - (t.1 + t.2.2)) t

/-- `find_longest_match(alo, ahi, blo, bhi)` of
`difflib.SequenceMatcher(None, a, b)`. -/
def findLongestMatch (a b : List Char) (b2jf : Char → List Nat)
    (alo ahi blo bhi : Nat) : Nat × Nat × Nat :=
  extendHi a b ahi bhi (extendLo a b alo blo
    (flmMain a b2jf blo bhi (List.range' alo (ahi - alo)) (fun _ => 0) (alo, blo, 0)))

/-- Invariant of the `j2len` row dicts: every entry is at most the
number of processed rows `m`, and a nonzero entry at key `j'` comes
from a run lying inside `[blo, _)`. -/
def RowBound (blo m : Nat) (p : Nat → Nat) : Prop :=
  ∀ j', p j' ≤ m ∧ (p j' ≠ 0 → p j' + blo ≤ j' + 1)

/-- Invariant of the `(besti, bestj, bestsize)` triple: it is the
initial `(alo, blo, 0)` or describes a block inside the window. -/
def BestBound (alo blo ahi bhi : Nat) (t : Nat × Nat × Nat) : Prop :=
  (t.2.2 = 0 → t.1 = alo ∧ t.2.1 = blo) ∧
  (t.2.2 ≠ 0 → alo ≤ t.1 ∧ blo ≤ t.2.1 ∧ t.1 + t.2.2 ≤ ahi ∧ t.2.1 + t.2.2 ≤ bhi)

/-- Sum of the matched block sizes of `get_matching_blocks` (the
recursive divide and conquer of the source: the queue order does not
affect which blocks are produced, the final sort and the collapsing of
adjacent blocks do not change the sum, and `ratio()` consumes only the
sum).  Structured with fuel so that it evaluates; each recursive call
strictly shrinks `(ahi - alo) + (bhi - blo)` (see `flm_bound`), and
`matchSumF_stable` below shows every fuel at least that measure gives
the same value, so the fuel is not a semantic cap. -/
def matchSumF (a b : List Char) (f : Char → List Nat) :
    Nat → Nat → Nat → Nat → Nat → Nat
  | 0, _, _, _, _ => 0
  | fuel + 1, alo, ahi, blo, bhi =>
    if (findLongestMatch a b f alo ahi blo bhi).2.2 = 0 then 0
    else
      (if alo < (findLongestMatch a b f alo ahi blo bhi).1 ∧
          blo < (findLongestMatch a b f alo ahi blo bhi).2.1 then
        matchSumF a b f fuel alo (findLongestMatch a b f alo ahi blo bhi).1
          blo (findLongestMatch a b f alo ahi blo bhi).2.1
      else 0)
      + (findLongestMatch a b f alo ahi blo bhi).2.2
      + (if (findLongestMatch a b f alo ahi blo bhi).1 +
            (findLongestMatch a b f alo ahi blo bhi).2.2 < ahi ∧
          (findLongestMatch a b f alo ahi blo bhi).2.1 +
            (findLongestMatch a b f alo ahi blo bhi).2.2 < bhi then
        matchSumF a b f fuel
          ((findLongestMatch a b f alo ahi blo bhi).1 +
            (findLongestMatch a b f alo ahi blo bhi).2.2) ahi
          ((findLongestMatch a b f alo ahi blo bhi).2.1 +
            (findLongestMatch a b f alo ahi blo bhi).2.2) bhi
      else 0)

def matchSum (a b : List Char) (f : Char → List Nat) (alo ahi blo bhi : Nat) : Nat :=
  matchSumF a b f ((ahi - alo) + (bhi - blo)) alo ahi blo bhi

/-- `SequenceMatcher(None, a, b).ratio()` = `2*M/T`; `_calculate_ratio`
returns `1.0` when both sequences are empty. -/
def ratioQ (a b : List Char) : ℚ :=
  if a.length + b.length = 0 then 1
  else 2 * (matchSum a b (b2jMap b) 0 a.length 0 b.length : ℚ) / ((a.length + b.length : Nat) : ℚ)

/-- `titles_match` from `src/filter.py`; every call site uses the
default threshold 0.85. -/
def titles_match (title1 title2 : String) (threshold : ℚ) : Bool :=
  decide (threshold ≤ ratioQ (normalize_title title1).data (normalize_title title2).data)

/-- Does cell `(r, j)` of the dynamic program match, i.e. is `j` in
`b2j.get(a[r], [])`?  (Self-comparison `b = a`.) -/
def cellB (a : List Char) (r j : Nat) : Bool :=
  match a.get? r with
  | some c => (b2jMap a c).contains j
  | none => false

/-- Run length ending at cell `(r, j)`: the value difflib's inner loop
computes as `j2len.get(j-1, 0) + 1` when the cell matches. -/
def runLen (a : List Char) : Nat → Nat → Nat
  | 0, j => if cellB a 0 j then 1 else 0
  | r + 1, 0 => if cellB a (r + 1) 0 then 1 else 0
  | r + 1, j + 1 => if cellB a (r + 1) (j + 1) then runLen a r j + 1 else 0

/-- Largest diagonal run over the rows `0, …, r-1`: the value of
`bestsize` before row `r` is processed in the self-comparison. -/
def maxDiag (a : List Char) : Nat → Nat
  | 0 => 0
  | r + 1 => max (maxDiag a r) (runLen a r r)

/-! ### The record data model (§3 of the spec)

A record is a Python dict; every field the core reads is optional.
`relevance_score`, `topic` and `also_found_in` are the derived fields
the core writes. -/

structure Record where
  title : Option String
  authors : Option (List String)
  abstract : Option String
  url : Option String
  published : Option String
  source : Option String
  citation_count : Option Int
  relevance_score : Option ℚ
  topic : Option String
  also_found_in : Option String
deriving DecidableEq, Repr

/-- Substring containment, Python's `sub in s` for strings: `sub`
occurs as a contiguous run of characters of `s`. -/
def strContains (s sub : String) : Bool := decide (sub.data <:+: s.data)

/-- `compute_relevance_score` from `src/filter.py`. -/
def compute_relevance_score (paper : Record)
    (primary_keywords secondary_keywords : List String) : ℚ :=
  let text := pyLowerS (paper.title.getD "" ++ " " ++ paper.abstract.getD "")
  let score : ℚ := 0
  let primary_matches := (primary_keywords.filter (fun kw => strContains text (pyLowerS kw))).length
  let score := score + min ((primary_matches : ℚ) * 0.2) 0.6
  let title_lower := pyLowerS (paper.title.getD "")
  let title_primary := (primary_keywords.filter (fun kw => strContains title_lower (pyLowerS kw))).length
  let score := score + min ((title_primary : ℚ) * 0.15) 0.3
  let secondary_matches := (secondary_keywords.filter (fun kw => strContains text (pyLowerS kw))).length
  let score := score + min ((secondary_matches : ℚ) * 0.05) 0.2
  let citations := paper.citation_count.getD 0
  let score := if citations > 0 then score + min ((citations : ℚ) * 0.01) 0.1 else score
  min score 1

/-- Richness of a record in `deduplicate_papers`:
`len(abstract) + len(authors)`. -/
def richness (p : Record) : Nat :=
  (p.abstract.getD "").length + (p.authors.getD []).length

/-- One step of the `for paper in papers` loop of `deduplicate_papers`:
scan `unique` for the first entry whose title matches, then either
replace it by the richer incoming paper (recording the loser's source
as `also_found_in`) or keep it and record the incoming paper's source. -/
def dedupStep (unique : List Record) (paper : Record) : List Record :=
  match unique.findIdx? (fun existing =>
      titles_match (paper.title.getD "") (existing.title.getD "") 0.85) with
  | some i =>
    match unique.get? i with
    | some existing =>
      if richness paper > richness existing then
        unique.set i { paper with also_found_in := some (existing.source.getD "") }
      else
        unique.set i { existing with also_found_in := some (paper.source.getD "") }
    | none => unique
  | none => unique ++ [paper]

/-- `deduplicate_papers` from `src/filter.py`. -/
def deduplicate_papers (papers : List Record) : List Record :=
  papers.foldl dedupStep []

/-- Sort key `(p["relevance_score"], p.get("published", ""))`.  After
the scoring stage the score is always present (the `Except` variants
below make the raising subscript explicit), so the pure model reads it
with default `0`. -/
def rkey (p : Record) : ℚ × String := (p.relevance_score.getD 0, p.published.getD "")

/-- Python string comparison `s < t`: lexicographic by code point. -/
def strLtB : List Char → List Char → Bool
  | [], [] => false
  | [], _ :: _ => true
  | _ :: _, [] => false
  | c :: cs, d :: ds => if c < d then true else if d < c then false else strLtB cs ds

/-- Python tuple comparison: lexicographic, strings by code points
(`d1 ≤ d2` rendered as `¬(d2 < d1)`). -/
def keyLe (x y : ℚ × String) : Prop :=
  x.1 < y.1 ∨ (x.1 = y.1 ∧ strLtB y.2.data x.2.data = false)

instance keyLeDec (x y : ℚ × String) : Decidable (keyLe x y) := by
  unfold keyLe
  infer_instance

/-- The descending comparison used by every
`papers.sort(key=..., reverse=True)` call: `p` may precede `q` iff
`q`'s key does not exceed `p`'s. -/
def keyGeB (p q : Record) : Bool := decide (keyLe (rkey q) (rkey p))

/-- A stable descending sort by `(relevance_score, published)`:
Python's `list.sort(key=..., reverse=True)` (Timsort is stable and
`reverse=True` does not reorder equal keys; `mergeSort` is stable). -/
def sortDesc (papers : List Record) : List Record :=
  papers.mergeSort keyGeB

/-- Source tag test `p.get("source") in ("arxiv", "semantic_scholar",
"google_scholar")`; an absent tag is not academic. -/
def isAcademic (p : Record) : Bool :=
  p.source == some "arxiv" || p.source == some "semantic_scholar" ||
    p.source == some "google_scholar"

/-- `filter_and_rank` from `src/filter.py`. -/
def filter_and_rank (papers : List Record) (primary_keywords secondary_keywords : List String)
    (max_items : Nat) (min_relevance : ℚ) : List Record :=
  let deduped := deduplicate_papers papers
  let scored := deduped.map (fun p =>
    { p with relevance_score := some (compute_relevance_score p primary_keywords secondary_keywords) })
  let kept := scored.filter (fun p => decide (p.relevance_score.getD 0 ≥ min_relevance))
  (sortDesc kept).take max_items

/-- `TEXT_KEYWORDS` from `src/filter.py` (present in the source; the
classifier never reads it). -/
def TEXT_KEYWORDS : List String :=
  ["natural language", "nlp", "text",
   "linguistic", "morpholog", "multilingual", "translation",
   "subword", "vocabulary", "corpus", "corpora",
   "machine translation", "sentiment", "named entity",
   "word", "sentence", "document", "grammar", "syntax",
   "writing system", "script",
   "urdu", "turkish", "indonesian", "arabic", "chinese",
   "japanese", "korean", "uralic", "agglutinative", "inflect",
   "malayalam", "hindi", "bengali", "swahili", "finnish"]

/-- `OTHER_KEYWORDS` from `src/filter.py`. -/
def OTHER_KEYWORDS : List String :=
  ["speech", "audio", "acoustic", "asr", "voice", "speaker",
   "multilingual speech", "speech recognition",
   "image", "visual", "video", "pixel", "diffusion",
   "autoregressive image", "image generation", "image model",
   "robot", "embodied", "motor", "sensor",
   "dna", "protein", "genome", "chemical", "molecular",
   "music", "midi",
   "point cloud", "3d", "lidar",
   "voxel", "mesh", "neural radiance"]

/-- `classify_topic` from `src/filter.py`. -/
def classify_topic (paper : Record) : String :=
  let title := pyLowerS (paper.title.getD "")
  let abstract := pyLowerS (paper.abstract.getD "")
  let text := title ++ " " ++ abstract
  let title_other := (OTHER_KEYWORDS.filter (fun kw => strContains title kw)).length
  if title_other ≥ 1 then "other"
  else
    let other_score := (OTHER_KEYWORDS.filter (fun kw => strContains text kw)).length
    if other_score ≥ 2 then "other" else "text"

/-- The scoring loop of `filter_and_rank_with_rest`: set
`relevance_score`, then `topic` (the classifier reads only `title` and
`abstract`, which the first update leaves unchanged). -/
def scoreStage (primary_keywords secondary_keywords : List String)
    (papers : List Record) : List Record :=
  papers.map (fun p =>
    let p1 := { p with relevance_score := some (compute_relevance_score p primary_keywords secondary_keywords) }
    { p1 with topic := some (classify_topic p1) })

/-- The records of `filter_and_rank_with_rest` that survive
deduplication, scoring and the minimum-relevance filter. -/
def survivors (papers : List Record) (pk sk : List String) (min_relevance : ℚ) : List Record :=
  (scoreStage pk sk (deduplicate_papers papers)).filter
    (fun p => decide (p.relevance_score.getD 0 ≥ min_relevance))

/-- `filter_and_rank_with_rest` from `src/filter.py`. -/
def filter_and_rank_with_rest (papers : List Record) (pk sk : List String)
    (max_items : Nat) (min_relevance : ℚ) : List Record × List Record :=
  let surv := survivors papers pk sk min_relevance
  let academic := sortDesc (surv.filter (fun p => isAcademic p))
  let non_academic := sortDesc (surv.filter (fun p => !isAcademic p))
  let reserved := non_academic.take 2
  let remaining := sortDesc (academic ++ non_academic.drop 2)
  let all_ranked := reserved ++ remaining
  (all_ranked.take max_items, all_ranked.drop max_items)

structure Sections where
  text_papers : List Record
  text_blogs : List Record
  other_papers : List Record
deriving DecidableEq, Repr

/-- A backfill loop of `categorize_selections` (`for p in academic: …`
with the `break` once the section reaches its cap). -/
def fillSection (cap : Nat) (want : String) :
    List Record → List Record → List (Option String) → List Record × List (Option String)
  | [], sec, seen => (sec, seen)
  | p :: ps, sec, seen =>
    if p.title ∉ seen ∧ p.topic = some want then
      let sec' := sec ++ [p]
      let seen' := p.title :: seen
      if cap ≤ sec'.length then (sec', seen') else fillSection cap want ps sec' seen'
    else fillSection cap want ps sec seen

/-- `categorize_selections` from `src/filter.py`; the `selected_titles`
set is modelled as the list of collected `p.get("title")` values,
queried only through membership. -/
def categorize_selections (papers : List Record) : Sections :=
  let academic := papers.filter (fun p => isAcademic p)
  let non_academic := papers.filter (fun p => !isAcademic p)
  let text_papers := (academic.filter (fun p => p.topic == some "text")).take 5
  let text_blogs := (non_academic.filter (fun p => p.topic == some "text")).take 3
  let other_papers := (academic.filter (fun p => p.topic == some "other")).take 3
  let seen := (text_papers ++ text_blogs ++ other_papers).map Record.title
  let tp2 := if text_papers.length < 5 then
      fillSection 5 "text" academic text_papers seen
    else (text_papers, seen)
  let op2 := if other_papers.length < 3 then
      fillSection 3 "other" academic other_papers tp2.2
    else (other_papers, tp2.2)
  { text_papers := tp2.1, text_blogs := text_blogs, other_papers := op2.1 }

/-- Plain truncation of the academic text section: no backfill. -/
def plainTextPapers (papers : List Record) : List Record :=
  ((papers.filter (fun p => isAcademic p)).filter (fun p => p.topic == some "text")).take 5

/-- Plain truncation of the non-academic text section. -/
def plainTextBlogs (papers : List Record) : List Record :=
  ((papers.filter (fun p => !isAcademic p)).filter (fun p => p.topic == some "text")).take 3

/-- Plain truncation of the academic other-modality section. -/
def plainOtherPapers (papers : List Record) : List Record :=
  ((papers.filter (fun p => isAcademic p)).filter (fun p => p.topic == some "other")).take 3

/-! ### Exception model

Every dict access in the core is a defaulting `.get` except the
subscripts `p["relevance_score"]` in the filter steps and in the sort
keys of `filter_and_rank` / `filter_and_rank_with_rest`.  The variants
below make those raising accesses explicit in `Except`. -/

/-- Python `p["relevance_score"]`: `KeyError` when the key is absent. -/
def getScoreItem (p : Record) : Except String ℚ :=
  match p.relevance_score with
  | some q => Except.ok q
  | none => Except.error "KeyError: relevance_score"

/-- `[p for p in papers if p["relevance_score"] >= min_relevance]`,
evaluated left to right with its possible `KeyError` propagated. -/
def filterScoresE (min_relevance : ℚ) : List Record → Except String (List Record)
  | [] => Except.ok []
  | p :: ps =>
    match getScoreItem p with
    | Except.error e => Except.error e
    | Except.ok s =>
      match filterScoresE min_relevance ps with
      | Except.error e => Except.error e
      | Except.ok rest => Except.ok (if s ≥ min_relevance then p :: rest else rest)

/-- `list.sort(key=...)` first evaluates the key of every element (the
only part that can raise); the comparisons then use the computed keys. -/
def checkKeysE : List Record → Except String Unit
  | [] => Except.ok ()
  | p :: ps =>
    match getScoreItem p with
    | Except.error e => Except.error e
    | Except.ok _ => checkKeysE ps

/-- `filter_and_rank` with its raising subscripts made explicit. -/
def filter_and_rank_E (papers : List Record) (pk sk : List String)
    (max_items : Nat) (min_relevance : ℚ) : Except String (List Record) :=
  let deduped := deduplicate_papers papers
  let scored := deduped.map (fun p =>
    { p with relevance_score := some (compute_relevance_score p pk sk) })
  match filterScoresE min_relevance scored with
  | Except.error e => Except.error e
  | Except.ok kept =>
    match checkKeysE kept with
    | Except.error e => Except.error e
    | Except.ok _ => Except.ok ((sortDesc kept).take max_items)

/-- `filter_and_rank_with_rest` with its raising subscripts made
explicit (the filter and the three sort-key extractions). -/
def filter_and_rank_with_rest_E (papers : List Record) (pk sk : List String)
    (max_items : Nat) (min_relevance : ℚ) : Except String (List Record × List Record) :=
  let scored := scoreStage pk sk (deduplicate_papers papers)
  match filterScoresE min_relevance scored with
  | Except.error e => Except.error e
  | Except.ok surv =>
    match checkKeysE (surv.filter (fun p => isAcademic p)) with
    | Except.error e => Except.error e
    | Except.ok _ =>
      match checkKeysE (surv.filter (fun p => !isAcademic p)) with
      | Except.error e => Except.error e
      | Except.ok _ =>
        let academic := sortDesc (surv.filter (fun p => isAcademic p))
        let non_academic := sortDesc (surv.filter (fun p => !isAcademic p))
        match checkKeysE (academic ++ non_academic.drop 2) with
        | Except.error e => Except.error e
        | Except.ok _ =>
          let reserved := non_academic.take 2
          let remaining := sortDesc (academic ++ non_academic.drop 2)
          let all_ranked := reserved ++ remaining
          Except.ok (all_ranked.take max_items, all_ranked.drop max_items)

/-- Replace absent optional input fields by the defaults the core
substitutes: empty strings, empty author list, zero citations. -/
def withDefaults (p : Record) : Record :=
  { p with
    title := some (p.title.getD "")
    authors := some (p.authors.getD [])
    abstract := some (p.abstract.getD "")
    url := some (p.url.getD "")
    published := some (p.published.getD "")
    citation_count := some (p.citation_count.getD 0) }

/-- The seven §3 input fields of a record — everything except the
derived `relevance_score`, `topic` and `also_found_in`. -/
def baseFields (p : Record) :
    Option String × Option (List String) × Option String × Option String ×
      Option String × Option String × Option Int :=
  (p.title, p.authors, p.abstract, p.url, p.published, p.source, p.citation_count)

/-- An input record: every derived field absent. -/
def mkRec (title abstract source published : String) : Record :=
  { title := some title, authors := none, abstract := some abstract, url := none,
    published := some published, source := some source, citation_count := none,
    relevance_score := none, topic := none, also_found_in := none }

/-- Record of the §3 shape carrying a `topic`, as `categorize_selections`
consumes them. -/
def mkCat (title source topic : String) : Record :=
  { title := some title, authors := none, abstract := none, url := none,
    published := none, source := some source, citation_count := none,
    relevance_score := none, topic := some topic, also_found_in := none }

/-- Concrete records for the selector evaluations: one academic record
and two non-academic ones, distinct titles, tie scores, descending
publication dates with the academic record most recent. -/
def cexA : Record := mkRec "aa" "" "arxiv" "2025-01-03"

def cexN1 : Record := mkRec "bb" "" "web" "2025-01-02"

def cexN2 : Record := mkRec "cc" "" "web" "2025-01-01"

/-- The shape the scoring stage gives those records under empty
keyword lists. -/
def scored0 (p : Record) : Record :=
  { p with relevance_score := some 0, topic := some "text" }

theorem bestBound_mk (alo blo ahi bhi bi bj bs : Nat)
    (h1 : bs = 0 → bi = alo ∧ bj = blo)
    (h2 : bs ≠ 0 → alo ≤ bi ∧ blo ≤ bj ∧ bi + bs ≤ ahi ∧ bj + bs ≤ bhi) :
    BestBound alo blo ahi bhi (bi, bj, bs) := ⟨h1, h2⟩

theorem flmRow_bound (i blo bhi alo ahi m : Nat) (prev : Nat → Nat)
    (hi2 : i < ahi) (him : alo + m = i) (hprev : RowBound blo m prev) :
    ∀ (js : List Nat) (new : Nat → Nat) (best : Nat × Nat × Nat),
      RowBound blo (m + 1) new → BestBound alo blo ahi bhi best →
      RowBound blo (m + 1) (flmRow i blo bhi prev js new best).1 ∧
      BestBound alo blo ahi bhi (flmRow i blo bhi prev js new best).2
  | [], new, best, hnew, hbest => by
    simpa [flmRow] using ⟨hnew, hbest⟩
  | j :: js, new, best, hnew, hbest => by
    by_cases h1 : j < blo
    · simp only [flmRow, if_pos h1]
      exact flmRow_bound i blo bhi alo ahi m prev hi2 him hprev js new best hnew hbest
    · by_cases h2 : bhi ≤ j
      · simp only [flmRow, if_neg h1, if_pos h2]
        exact ⟨hnew, hbest⟩
      · simp only [flmRow, if_neg h1, if_neg h2]
        have hp1 : prev (j - 1) ≤ m := (hprev (j - 1)).1
        have hp2 : prev (j - 1) ≠ 0 → prev (j - 1) + blo ≤ j - 1 + 1 := (hprev (j - 1)).2
        have hkm : (if j = 0 then 0 else prev (j - 1)) + 1 ≤ m + 1 := by
          split <;> omega
        have hkb : (if j = 0 then 0 else prev (j - 1)) + 1 + blo ≤ j + 1 := by
          split
          · omega
          · by_cases hz : prev (j - 1) = 0
            · rw [hz]; omega
            · have := hp2 hz; omega
        apply flmRow_bound i blo bhi alo ahi m prev hi2 him hprev js
        · intro j'
          dsimp only
          by_cases hj : j' = j
          · rw [if_pos hj]
            exact ⟨hkm, fun _ => by omega⟩
          · rw [if_neg hj]
            exact hnew j'
        · by_cases hb : best.2.2 < (if j = 0 then 0 else prev (j - 1)) + 1
          · rw [if_pos hb]
            apply bestBound_mk
            · omega
            · intro _
              refine ⟨by omega, by omega, by omega, by omega⟩
          · rw [if_neg hb]
            exact hbest

theorem flmMain_bound (a : List Char) (f : Char → List Nat) (blo bhi alo ahi : Nat) :
    ∀ (cnt m i : Nat) (prev : Nat → Nat) (best : Nat × Nat × Nat),
      alo + m = i → cnt ≤ ahi - i → RowBound blo m prev →
      BestBound alo blo ahi bhi best →
      BestBound alo blo ahi bhi (flmMain a f blo bhi (List.range' i cnt) prev best)
  | 0, m, i, prev, best, him, hcnt, hprev, hbest => by
    simpa [flmMain] using hbest
  | cnt + 1, m, i, prev, best, him, hcnt, hprev, hbest => by
    rw [List.range'_succ]
    simp only [flmMain]
    have hrow := flmRow_bound i blo bhi alo ahi m prev (by omega) him hprev
      (match a.get? i with | some c => f c | none => []) (fun _ => 0) best
      (fun j' => ⟨Nat.zero_le _, fun h => absurd rfl h⟩) hbest
    exact flmMain_bound a f blo bhi alo ahi cnt (m + 1) (i + 1) _ _
      (by omega) (by omega) hrow.1 hrow.2

theorem extendLoF_bound (a b : List Char) (alo blo ahi bhi : Nat) :
    ∀ (fuel bi bj bs : Nat), BestBound alo blo ahi bhi (bi, bj, bs) →
      BestBound alo blo ahi bhi (extendLoF a b alo blo fuel (bi, bj, bs))
  | 0, bi, bj, bs, h => h
  | fuel + 1, bi, bj, bs, h => by
    have e1 : bs = 0 → bi = alo ∧ bj = blo := h.1
    have e2 : bs ≠ 0 → alo ≤ bi ∧ blo ≤ bj ∧ bi + bs ≤ ahi ∧ bj + bs ≤ bhi := h.2
    rw [extendLoF]
    split
    next hc =>
      have hbs : bs ≠ 0 := by
        rintro rfl
        have := e1 rfl
        omega
      have := e2 hbs
      apply extendLoF_bound a b alo blo ahi bhi fuel (bi - 1) (bj - 1) (bs + 1)
      apply bestBound_mk
      · omega
      · intro _
        refine ⟨by omega, by omega, by omega, by omega⟩
    next => exact h

theorem extendLo_bound (a b : List Char) (alo blo ahi bhi : Nat)
    (bi bj bs : Nat) (h : BestBound alo blo ahi bhi (bi, bj, bs)) :
    BestBound alo blo ahi bhi (extendLo a b alo blo (bi, bj, bs)) :=
  extendLoF_bound a b alo blo ahi bhi bi bi bj bs h

theorem extendHiF_bound (a b : List Char) (alo blo ahi bhi : Nat) :
    ∀ (fuel bi bj bs : Nat), BestBound alo blo ahi bhi (bi, bj, bs) →
      BestBound alo blo ahi bhi (extendHiF a b ahi bhi fuel (bi, bj, bs))
  | 0, bi, bj, bs, h => h
  | fuel + 1, bi, bj, bs, h => by
    have e1 : bs = 0 → bi = alo ∧ bj = blo := h.1
    have e2 : bs ≠ 0 → alo ≤ bi ∧ blo ≤ bj ∧ bi + bs ≤ ahi ∧ bj + bs ≤ bhi := h.2
    rw [extendHiF]
    split
    next hc =>
      apply extendHiF_bound a b alo blo ahi bhi fuel bi bj (bs + 1)
      apply bestBound_mk
      · omega
      · intro _
        by_cases hbs : bs = 0
        · have := e1 hbs
          refine ⟨by omega, by omega, by omega, by omega⟩
        · have := e2 hbs
          refine ⟨by omega, by omega, by omega, by omega⟩
    next => exact h

theorem extendHi_bound (a b : List Char) (alo blo ahi bhi : Nat)
    (bi bj bs : Nat) (h : BestBound alo blo ahi bhi (bi, bj, bs)) :
    BestBound alo blo ahi bhi (extendHi a b ahi bhi (bi, bj, bs)) :=
  extendHiF_bound a b alo blo ahi bhi (ahi - (bi + bs)) bi bj bs h

theorem flm_bound (a b : List Char) (f : Char → List Nat) (alo ahi blo bhi : Nat) :
    BestBound alo blo ahi bhi (findLongestMatch a b f alo ahi blo bhi) := by
  unfold findLongestMatch
  have h1 : BestBound alo blo ahi bhi
      (flmMain a f blo bhi (List.range' alo (ahi - alo)) (fun _ => 0) (alo, blo, 0)) :=
    flmMain_bound a f blo bhi alo ahi (ahi - alo) 0 alo (fun _ => 0) (alo, blo, 0)
      rfl (Nat.le_refl _) (fun j' => ⟨Nat.le_refl _, fun h => absurd rfl h⟩)
      (bestBound_mk alo blo ahi bhi alo blo 0 (fun _ => ⟨rfl, rfl⟩) (fun h => absurd rfl h))
  have h2 : BestBound alo blo ahi bhi (extendLo a b alo blo
      (flmMain a f blo bhi (List.range' alo (ahi - alo)) (fun _ => 0) (alo, blo, 0))) :=
    extendLo_bound a b alo blo ahi bhi _ _ _ h1
  exact extendHi_bound a b alo blo ahi bhi _ _ _ h2

theorem matchSumF_zero_window (a b : List Char) (f : Char → List Nat) :
    ∀ (fuel alo ahi blo bhi : Nat), (ahi - alo) + (bhi - blo) = 0 →
      matchSumF a b f fuel alo ahi blo bhi = 0
  | 0, alo, ahi, blo, bhi, h => rfl
  | fuel + 1, alo, ahi, blo, bhi, h => by
    have hk : (findLongestMatch a b f alo ahi blo bhi).2.2 = 0 := by
      by_contra hc
      have hb : (findLongestMatch a b f alo ahi blo bhi).2.2 ≠ 0 →
          alo ≤ (findLongestMatch a b f alo ahi blo bhi).1 ∧
          blo ≤ (findLongestMatch a b f alo ahi blo bhi).2.1 ∧
          (findLongestMatch a b f alo ahi blo bhi).1 +
            (findLongestMatch a b f alo ahi blo bhi).2.2 ≤ ahi ∧
          (findLongestMatch a b f alo ahi blo bhi).2.1 +
            (findLongestMatch a b f alo ahi blo bhi).2.2 ≤ bhi :=
        (flm_bound a b f alo ahi blo bhi).2
      have := hb hc
      omega
    rw [matchSumF, if_pos hk]

theorem matchSumF_stable (a b : List Char) (f : Char → List Nat) :
    ∀ (f1 f2 alo ahi blo bhi : Nat),
      (ahi - alo) + (bhi - blo) ≤ f1 → (ahi - alo) + (bhi - blo) ≤ f2 →
      matchSumF a b f f1 alo ahi blo bhi = matchSumF a b f f2 alo ahi blo bhi
  | 0, f2, alo, ahi, blo, bhi, h1, h2 => by
    rw [matchSumF_zero_window a b f 0 alo ahi blo bhi (by omega),
      matchSumF_zero_window a b f f2 alo ahi blo bhi (by omega)]
  | f1 + 1, 0, alo, ahi, blo, bhi, h1, h2 => by
    rw [matchSumF_zero_window a b f (f1 + 1) alo ahi blo bhi (by omega),
      matchSumF_zero_window a b f 0 alo ahi blo bhi (by omega)]
  | f1 + 1, f2 + 1, alo, ahi, blo, bhi, h1, h2 => by
    rw [matchSumF, matchSumF]
    by_cases hk : (findLongestMatch a b f alo ahi blo bhi).2.2 = 0
    · rw [if_pos hk, if_pos hk]
    · rw [if_neg hk, if_neg hk]
      have hb : (findLongestMatch a b f alo ahi blo bhi).2.2 ≠ 0 →
          alo ≤ (findLongestMatch a b f alo ahi blo bhi).1 ∧
          blo ≤ (findLongestMatch a b f alo ahi blo bhi).2.1 ∧
          (findLongestMatch a b f alo ahi blo bhi).1 +
            (findLongestMatch a b f alo ahi blo bhi).2.2 ≤ ahi ∧
          (findLongestMatch a b f alo ahi blo bhi).2.1 +
            (findLongestMatch a b f alo ahi blo bhi).2.2 ≤ bhi :=
        (flm_bound a b f alo ahi blo bhi).2
      have hbb := hb hk
      by_cases hc1 : alo < (findLongestMatch a b f alo ahi blo bhi).1 ∧
          blo < (findLongestMatch a b f alo ahi blo bhi).2.1
      · rw [if_pos hc1, if_pos hc1,
          matchSumF_stable a b f f1 f2 alo (findLongestMatch a b f alo ahi blo bhi).1
            blo (findLongestMatch a b f alo ahi blo bhi).2.1 (by omega) (by omega)]
        by_cases hc2 : (findLongestMatch a b f alo ahi blo bhi).1 +
              (findLongestMatch a b f alo ahi blo bhi).2.2 < ahi ∧
            (findLongestMatch a b f alo ahi blo bhi).2.1 +
              (findLongestMatch a b f alo ahi blo bhi).2.2 < bhi
        · rw [if_pos hc2, if_pos hc2,
            matchSumF_stable a b f f1 f2 _ ahi _ bhi (by omega) (by omega)]
        · rw [if_neg hc2, if_neg hc2]
      · rw [if_neg hc1, if_neg hc1]
        by_cases hc2 : (findLongestMatch a b f alo ahi blo bhi).1 +
              (findLongestMatch a b f alo ahi blo bhi).2.2 < ahi ∧
            (findLongestMatch a b f alo ahi blo bhi).2.1 +
              (findLongestMatch a b f alo ahi blo bhi).2.2 < bhi
        · rw [if_pos hc2, if_pos hc2,
            matchSumF_stable a b f f1 f2 _ ahi _ bhi (by omega) (by omega)]
        · rw [if_neg hc2, if_neg hc2]

/-! ### Reflexivity of the matcher: `ratio(a, a) = 1`.

For the self-comparison the main loop's best block always lies on the
diagonal, and the extension loops then grow any diagonal block to the
whole string.  `runLen a r j` is the value difflib keeps in `j2len[j]`
while processing row `r` when comparing `a` with itself. -/

theorem mem_posList (b : List Char) (c : Char) (j : Nat) :
    j ∈ posList b c ↔ j < b.length ∧ b.get? j = some c := by
  simp [posList, List.mem_filter, List.mem_range]

theorem mem_b2jMap (b : List Char) (c : Char) (j : Nat) :
    j ∈ b2jMap b c ↔ isPopular b c = false ∧ j < b.length ∧ b.get? j = some c := by
  by_cases h : isPopular b c = true
  · simp [b2jMap, h]
  · simp only [Bool.not_eq_true] at h
    simp [b2jMap, h, mem_posList]

theorem cellB_iff (a : List Char) (r j : Nat) :
    cellB a r j = true ↔ ∃ c, a.get? r = some c ∧ j ∈ b2jMap a c := by
  unfold cellB
  cases hr : a.get? r
  · simp
  · simp [List.contains, List.elem_iff]

theorem cellB_diag_right (a : List Char) (r j : Nat) (h : cellB a r j = true) :
    cellB a j j = true := by
  rw [cellB_iff] at h ⊢
  obtain ⟨c, hc, hm⟩ := h
  have hm' := (mem_b2jMap a c j).mp hm
  exact ⟨c, hm'.2.2, hm⟩

theorem cellB_diag_left (a : List Char) (r j : Nat) (h : cellB a r j = true) :
    cellB a r r = true := by
  rw [cellB_iff] at h ⊢
  obtain ⟨c, hc, hm⟩ := h
  have hm' := (mem_b2jMap a c j).mp hm
  refine ⟨c, hc, (mem_b2jMap a c r).mpr ⟨hm'.1, ?_, hc⟩⟩
  by_contra hr
  rw [List.get?_eq_none.mpr (by omega)] at hc
  exact Option.noConfusion hc

theorem runLen_of_not_cell (a : List Char) (r j : Nat) (h : cellB a r j = false) :
    runLen a r j = 0 := by
  match r, j with
  | 0, j => simp [runLen, h]
  | r + 1, 0 => simp [runLen, h]
  | r + 1, j + 1 => simp [runLen, h]

theorem runLen_succ_succ (a : List Char) (r j : Nat) (h : cellB a (r + 1) (j + 1) = true) :
    runLen a (r + 1) (j + 1) = runLen a r j + 1 := by
  simp [runLen, h]

theorem runLen_base (a : List Char) (r j : Nat) (h : cellB a r j = true)
    (h0 : r = 0 ∨ j = 0) : runLen a r j = 1 := by
  match r, j, h0 with
  | 0, j, _ => simp [runLen, h]
  | r' + 1, 0, h0 => simp [runLen, h]
  | r' + 1, j' + 1, h0 => omega

theorem runLen_pos (a : List Char) (r j : Nat) (h : cellB a r j = true) :
    1 ≤ runLen a r j := by
  match r, j with
  | 0, j => simp [runLen, h]
  | r + 1, 0 => simp [runLen, h]
  | r + 1, j + 1 => simp [runLen, h]

theorem runLen_le_row_succ (a : List Char) : ∀ r j, runLen a r j ≤ r + 1
  | r, j => by
    by_cases h : cellB a r j = true
    · match r, j with
      | 0, j => rw [runLen_base a 0 j h (Or.inl rfl)]
      | r' + 1, 0 => rw [runLen_base a (r' + 1) 0 h (Or.inr rfl)]; omega
      | r' + 1, j' + 1 =>
        rw [runLen_succ_succ a r' j' h]
        have := runLen_le_row_succ a r' j'
        omega
    · rw [runLen_of_not_cell a r j (by simpa using h)]
      omega

theorem runLen_le_col_diag (a : List Char) : ∀ r j, runLen a r j ≤ runLen a j j
  | r, j => by
    by_cases h : cellB a r j = true
    · have hd := cellB_diag_right a r j h
      match r, j with
      | 0, j => rw [runLen_base a 0 j h (Or.inl rfl)]; exact runLen_pos a j j hd
      | r' + 1, 0 => rw [runLen_base a (r' + 1) 0 h (Or.inr rfl)]; exact runLen_pos a 0 0 hd
      | r' + 1, j' + 1 =>
        rw [runLen_succ_succ a r' j' h, runLen_succ_succ a j' j' hd]
        have := runLen_le_col_diag a r' j'
        omega
    · rw [runLen_of_not_cell a r j (by simpa using h)]
      omega

theorem runLen_le_row_diag (a : List Char) : ∀ r j, runLen a r j ≤ runLen a r r
  | r, j => by
    by_cases h : cellB a r j = true
    · have hd := cellB_diag_left a r j h
      match r, j with
      | 0, j => rw [runLen_base a 0 j h (Or.inl rfl)]; exact runLen_pos a 0 0 hd
      | r' + 1, 0 => rw [runLen_base a (r' + 1) 0 h (Or.inr rfl)]; exact runLen_pos a _ _ hd
      | r' + 1, j' + 1 =>
        rw [runLen_succ_succ a r' j' h, runLen_succ_succ a r' r' hd]
        have := runLen_le_row_diag a r' j'
        omega
    · rw [runLen_of_not_cell a r j (by simpa using h)]
      omega

theorem runLen_le_maxDiag (a : List Char) : ∀ r j, j < r → runLen a j j ≤ maxDiag a r
  | r + 1, j, h => by
    by_cases hj : j = r
    · subst hj
      exact Nat.le_max_right _ _
    · exact Nat.le_trans (runLen_le_maxDiag a r j (by omega)) (Nat.le_max_left _ _)

theorem kval (a : List Char) (r j : Nat) (h : cellB a r j = true) :
    (if j = 0 then 0 else if r = 0 then 0 else runLen a (r - 1) (j - 1)) + 1 =
      runLen a r j := by
  match r, j with
  | 0, 0 => rw [runLen_base a 0 0 h (Or.inl rfl)]; simp
  | 0, j' + 1 => rw [runLen_base a 0 (j' + 1) h (Or.inl rfl)]; simp
  | r' + 1, 0 => rw [runLen_base a (r' + 1) 0 h (Or.inr rfl)]; simp
  | r' + 1, j' + 1 => rw [runLen_succ_succ a r' j' h]; simp

theorem flmRow_self (a : List Char) (r : Nat) (prev : Nat → Nat)
    (hprev : ∀ j', prev j' = if r = 0 then 0 else runLen a (r - 1) j') :
    ∀ (rest : List Nat) (new : Nat → Nat) (best : Nat × Nat × Nat),
      (∀ j ∈ rest, cellB a r j = true) →
      (∀ j ∈ rest, j < a.length) →
      rest.Pairwise (· < ·) →
      (r ∈ rest ∨ runLen a r r ≤ best.2.2) →
      (∀ j', new j' = runLen a r j' ∨ (new j' = 0 ∧ j' ∈ rest)) →
      best.1 = best.2.1 →
      best.1 + best.2.2 ≤ a.length →
      maxDiag a r ≤ best.2.2 →
      (∀ j', (flmRow r 0 a.length prev rest new best).1 j' = runLen a r j') ∧
      (flmRow r 0 a.length prev rest new best).2.1 =
        (flmRow r 0 a.length prev rest new best).2.2.1 ∧
      (flmRow r 0 a.length prev rest new best).2.1 +
        (flmRow r 0 a.length prev rest new best).2.2.2 ≤ a.length ∧
      max (maxDiag a r) (runLen a r r) ≤ (flmRow r 0 a.length prev rest new best).2.2.2
  | [], new, best, hR1, hR2, hpw, hR4, hR5, hdg, hsum, hmax => by
    simp only [flmRow]
    refine ⟨?_, hdg, hsum, ?_⟩
    · intro j'
      rcases hR5 j' with h | h
      · exact h
      · exact absurd h.2 (List.not_mem_nil j')
    · rcases hR4 with h | h
      · exact absurd h (List.not_mem_nil r)
      · exact Nat.max_le.mpr ⟨hmax, h⟩
  | j :: tail, new, best, hR1, hR2, hpw, hR4, hR5, hdg, hsum, hmax => by
    have hcell : cellB a r j = true := hR1 j (List.mem_cons_self j tail)
    have hjn : j < a.length := hR2 j (List.mem_cons_self j tail)
    have hk : (if j = 0 then 0 else prev (j - 1)) + 1 = runLen a r j := by
      rw [hprev (j - 1)]
      exact kval a r j hcell
    simp only [flmRow, if_neg (Nat.not_lt_zero j), if_neg (by omega : ¬ a.length ≤ j)]
    by_cases hup : best.2.2 < (if j = 0 then 0 else prev (j - 1)) + 1
    · have hjr : j = r := by
        rcases Nat.lt_trichotomy j r with hlt | heq | hgt
        · exfalso
          have h1 : runLen a r j ≤ runLen a j j := runLen_le_col_diag a r j
          have h2 : runLen a j j ≤ maxDiag a r := runLen_le_maxDiag a r j hlt
          omega
        · exact heq
        · exfalso
          have hrr : r ∉ j :: tail := by
            intro hmem
            rcases List.mem_cons.mp hmem with h | h
            · omega
            · have := List.rel_of_pairwise_cons hpw h
              omega
          rcases hR4 with h | h
          · exact hrr h
          · have h1 : runLen a r j ≤ runLen a r r := runLen_le_row_diag a r j
            omega
      subst hjr
      rw [if_pos hup]
      apply flmRow_self a j prev hprev tail
      · exact fun x hx => hR1 x (List.mem_cons_of_mem j hx)
      · exact fun x hx => hR2 x (List.mem_cons_of_mem j hx)
      · exact (List.pairwise_cons.mp hpw).2
      · refine Or.inr ?_
        show runLen a j j ≤ (if j = 0 then 0 else prev (j - 1)) + 1
        omega
      · intro j'
        by_cases hj' : j' = j
        · subst hj'
          exact Or.inl (by simpa using hk)
        · simp only [if_neg hj']
          rcases hR5 j' with h | h
          · exact Or.inl h
          · rcases List.mem_cons.mp h.2 with h2 | h2
            · exact absurd h2 hj'
            · exact Or.inr ⟨h.1, h2⟩
      · rfl
      · show j + 1 - ((if j = 0 then 0 else prev (j - 1)) + 1) +
            ((if j = 0 then 0 else prev (j - 1)) + 1) ≤ a.length
        have hle : runLen a j j ≤ j + 1 := runLen_le_row_succ a j j
        omega
      · show maxDiag a j ≤ (if j = 0 then 0 else prev (j - 1)) + 1
        omega
    · rw [if_neg hup]
      apply flmRow_self a r prev hprev tail
      · exact fun x hx => hR1 x (List.mem_cons_of_mem j hx)
      · exact fun x hx => hR2 x (List.mem_cons_of_mem j hx)
      · exact (List.pairwise_cons.mp hpw).2
      · rcases hR4 with h | h
        · rcases List.mem_cons.mp h with h2 | h2
          · refine Or.inr ?_
            subst h2
            omega
          · exact Or.inl h2
        · exact Or.inr h
      · intro j'
        by_cases hj' : j' = j
        · subst hj'
          exact Or.inl (by simpa using hk)
        · simp only [if_neg hj']
          rcases hR5 j' with h | h
          · exact Or.inl h
          · rcases List.mem_cons.mp h.2 with h2 | h2
            · exact absurd h2 hj'
            · exact Or.inr ⟨h.1, h2⟩
      · exact hdg
      · exact hsum
      · exact hmax

theorem flmMain_self (a : List Char) :
    ∀ (cnt r : Nat) (prev : Nat → Nat) (best : Nat × Nat × Nat),
      r + cnt = a.length →
      (∀ j', prev j' = if r = 0 then 0 else runLen a (r - 1) j') →
      best.1 = best.2.1 →
      best.1 + best.2.2 ≤ a.length →
      maxDiag a r ≤ best.2.2 →
      (flmMain a (b2jMap a) 0 a.length (List.range' r cnt) prev best).1 =
        (flmMain a (b2jMap a) 0 a.length (List.range' r cnt) prev best).2.1 ∧
      (flmMain a (b2jMap a) 0 a.length (List.range' r cnt) prev best).1 +
        (flmMain a (b2jMap a) 0 a.length (List.range' r cnt) prev best).2.2 ≤ a.length
  | 0, r, prev, best, hcnt, hprev, hdg, hsum, hmax => by
    simp only [List.range', flmMain]
    exact ⟨hdg, hsum⟩
  | cnt + 1, r, prev, best, hcnt, hprev, hdg, hsum, hmax => by
    rw [List.range'_succ]
    simp only [flmMain]
    have hr : r < a.length := by omega
    obtain ⟨c, hc⟩ : ∃ c, a.get? r = some c := by
      cases hgr : a.get? r
      · rw [List.get?_eq_none] at hgr
        omega
      · exact ⟨_, rfl⟩
    have hmem : ∀ x, x ∈ b2jMap a c ↔ cellB a r x = true := by
      intro x
      rw [cellB_iff]
      constructor
      · exact fun hx => ⟨c, hc, hx⟩
      · rintro ⟨c', hc', hx⟩
        rw [hc] at hc'
        cases hc'
        exact hx
    have hrow := flmRow_self a r prev hprev (b2jMap a c) (fun _ => 0) best
      (fun x hx => (hmem x).mp hx)
      (fun x hx => ((mem_b2jMap a c x).mp hx).2.1)
      (by
        unfold b2jMap
        split
        · exact List.Pairwise.nil
        · exact (List.pairwise_lt_range _).filter _)
      (by
        by_cases hcc : cellB a r r = true
        · exact Or.inl ((hmem r).mpr hcc)
        · refine Or.inr ?_
          rw [runLen_of_not_cell a r r (by simpa using hcc)]
          omega)
      (by
        intro j'
        by_cases hj' : j' ∈ b2jMap a c
        · exact Or.inr ⟨rfl, hj'⟩
        · refine Or.inl ?_
          rw [runLen_of_not_cell a r j']
          have : ¬ cellB a r j' = true := fun hx => hj' ((hmem j').mpr hx)
          simpa using this)
      hdg hsum hmax
    rw [hc]
    exact flmMain_self a cnt (r + 1) _ _ (by omega)
      (fun j' => by simpa using (hrow.1 j')) hrow.2.1 hrow.2.2.1
      (by
        show maxDiag a (r + 1) ≤ _
        simpa [maxDiag] using hrow.2.2.2)

theorem extendLoF_self (a : List Char) : ∀ d s, d + s ≤ a.length →
    extendLoF a a 0 0 d (d, d, s) = (0, 0, d + s)
  | 0, s, h => by
    rw [extendLoF]
    simp
  | d + 1, s, h => by
    have hch : chEq a a (d + 1 - 1) (d + 1 - 1) = true := by
      have hd : d < a.length := by omega
      obtain ⟨c, hc⟩ : ∃ c, a.get? d = some c := by
        cases hgr : a.get? d
        · rw [List.get?_eq_none] at hgr
          omega
        · exact ⟨_, rfl⟩
      simp only [chEq, Nat.add_sub_cancel, hc]
      simp
    rw [extendLoF, if_pos ⟨Nat.succ_pos d, Nat.succ_pos d, hch⟩]
    have hrec := extendLoF_self a d (s + 1) (by omega)
    rw [show d + (s + 1) = d + 1 + s by omega] at hrec
    simpa using hrec

theorem extendLo_self (a : List Char) (d s : Nat) (h : d + s ≤ a.length) :
    extendLo a a 0 0 (d, d, s) = (0, 0, d + s) :=
  extendLoF_self a d s h

theorem extendHiF_self (a : List Char) : ∀ k s, k = a.length - s → s ≤ a.length →
    extendHiF a a a.length a.length k (0, 0, s) = (0, 0, a.length)
  | 0, s, hk, hs => by
    have hsn : s = a.length := by omega
    subst hsn
    rfl
  | k + 1, s, hk, hs => by
    have hs' : s < a.length := by omega
    have hch : chEq a a (0 + s) (0 + s) = true := by
      obtain ⟨c, hc⟩ : ∃ c, a.get? s = some c := by
        cases hgr : a.get? s
        · rw [List.get?_eq_none] at hgr
          omega
        · exact ⟨_, rfl⟩
      rw [Nat.zero_add]
      simp only [chEq, hc]
      simp
    rw [extendHiF, if_pos ⟨by omega, by omega, hch⟩]
    exact extendHiF_self a k (s + 1) (by omega) (by omega)

theorem extendHi_self (a : List Char) (s : Nat) (hs : s ≤ a.length) :
    extendHi a a a.length a.length (0, 0, s) = (0, 0, a.length) :=
  extendHiF_self a (a.length - (0 + s)) s (by omega) hs

theorem flm_self (a : List Char) :
    findLongestMatch a a (b2jMap a) 0 a.length 0 a.length = (0, 0, a.length) := by
  unfold findLongestMatch
  rw [Nat.sub_zero]
  have h := flmMain_self a a.length 0 (fun _ => 0) (0, 0, 0) (by omega)
    (fun j' => by simp) rfl (by simp) (by simp [maxDiag])
  rcases hm : flmMain a (b2jMap a) 0 a.length (List.range' 0 a.length) (fun _ => 0) (0, 0, 0)
    with ⟨bi, bj, bs⟩
  rw [hm] at h
  obtain ⟨h1, h2⟩ := h
  dsimp at h1 h2
  subst h1
  rw [extendLo_self a bi bs (by omega)]
  exact extendHi_self a (bi + bs) (by omega)

theorem matchSum_self (a : List Char) :
    matchSum a a (b2jMap a) 0 a.length 0 a.length = a.length := by
  unfold matchSum
  by_cases h : a.length = 0
  · rw [h]
    rfl
  · obtain ⟨g, hg⟩ : ∃ g, (a.length - 0) + (a.length - 0) = g + 1 :=
      ⟨a.length + a.length - 1, by omega⟩
    rw [hg, matchSumF, flm_self]
    dsimp only
    rw [if_neg h, if_neg (by omega : ¬(0 < 0 ∧ 0 < 0)),
      if_neg (by omega : ¬(0 + a.length < a.length ∧ 0 + a.length < a.length))]
    omega

theorem ratioQ_self (a : List Char) : ratioQ a a = 1 := by
  unfold ratioQ
  by_cases h : a.length + a.length = 0
  · rw [if_pos h]
  · rw [if_neg h, matchSum_self]
    have hn : ((a.length : ℚ) + (a.length : ℚ)) ≠ 0 := by
      have hpos : 0 < a.length := by omega
      have : (0 : ℚ) < (a.length : ℚ) + (a.length : ℚ) := by positivity
      exact ne_of_gt this
    field_simp
    ring

theorem titles_match_refl (t : String) (threshold : ℚ) (hth : threshold ≤ 1) :
    titles_match t t threshold = true := by
  unfold titles_match
  rw [ratioQ_self]
  simpa using hth

theorem strLtB_total : ∀ s t, strLtB s t = true ∨ strLtB t s = true ∨ s = t
  | [], [] => Or.inr (Or.inr rfl)
  | [], _ :: _ => Or.inl rfl
  | _ :: _, [] => Or.inr (Or.inl rfl)
  | c :: cs, d :: ds => by
    rcases lt_trichotomy c d with h | h | h
    · exact Or.inl (by simp [strLtB, h])
    · subst h
      rcases strLtB_total cs ds with h2 | h2 | h2
      · exact Or.inl (by simp [strLtB, lt_irrefl, h2])
      · exact Or.inr (Or.inl (by simp [strLtB, lt_irrefl, h2]))
      · exact Or.inr (Or.inr (by rw [h2]))
    · exact Or.inr (Or.inl (by simp [strLtB, h]))

theorem strLtB_trans : ∀ s t u, strLtB s t = true → strLtB t u = true → strLtB s u = true
  | [], t, u, h1, h2 => by
    cases t with
    | nil => exact absurd h1 (by simp [strLtB])
    | cons d ds =>
      cases u with
      | nil => exact absurd h2 (by simp [strLtB])
      | cons e es => simp [strLtB]
  | _ :: _, [], u, h1, h2 => absurd h1 (by simp [strLtB])
  | _ :: _, _ :: _, [], h1, h2 => absurd h2 (by simp [strLtB])
  | c :: cs, d :: ds, e :: es, h1, h2 => by
    simp only [strLtB] at h1 h2 ⊢
    rcases lt_trichotomy c d with hcd | hcd | hcd
    · rcases lt_trichotomy d e with hde | hde | hde
      · simp [lt_trans hcd hde]
      · subst hde
        simp [hcd]
      · rw [if_neg (lt_asymm hde), if_pos hde] at h2
        simp at h2
    · subst hcd
      rcases lt_trichotomy c e with hce | hce | hce
      · simp [hce]
      · subst hce
        rw [if_neg (lt_irrefl c), if_neg (lt_irrefl c)] at h1 h2 ⊢
        exact strLtB_trans cs ds es h1 h2
      · rw [if_neg (lt_asymm hce), if_pos hce] at h2
        simp at h2
    · rw [if_neg (lt_asymm hcd), if_pos hcd] at h1
      simp at h1

/-- No descent both ways: at most one of `s < t`, `t < s` holds. -/
theorem strLtB_nlt_trans (s t u : List Char) (h1 : strLtB t s = false)
    (h2 : strLtB u t = false) : strLtB u s = false := by
  by_contra hc
  simp only [Bool.not_eq_false] at hc
  rcases strLtB_total u t with h | h | h
  · rw [h] at h2
    exact Bool.noConfusion h2
  · have := strLtB_trans t u s h hc
    rw [this] at h1
    exact Bool.noConfusion h1
  · subst h
    rw [hc] at h1
    exact Bool.noConfusion h1

theorem strLtB_irrefl : ∀ s, strLtB s s = false
  | [] => rfl
  | c :: cs => by simp [strLtB, lt_irrefl, strLtB_irrefl cs]

theorem strLtB_asymm (s t : List Char) (h : strLtB s t = true) : strLtB t s = false := by
  by_contra hc
  simp only [Bool.not_eq_false] at hc
  have := strLtB_trans s t s h hc
  rw [strLtB_irrefl s] at this
  exact Bool.noConfusion this

theorem keyLe_total (x y : ℚ × String) : keyLe x y ∨ keyLe y x := by
  unfold keyLe
  rcases lt_trichotomy x.1 y.1 with h | h | h
  · exact Or.inl (Or.inl h)
  · by_cases h2 : strLtB y.2.data x.2.data = true
    · exact Or.inr (Or.inr ⟨h.symm, strLtB_asymm _ _ h2⟩)
    · exact Or.inl (Or.inr ⟨h, by simpa using h2⟩)
  · exact Or.inr (Or.inl h)

theorem keyLe_trans (x y z : ℚ × String) (h1 : keyLe x y) (h2 : keyLe y z) : keyLe x z := by
  unfold keyLe at h1 h2 ⊢
  rcases h1 with h1 | ⟨h1, h1'⟩ <;> rcases h2 with h2 | ⟨h2, h2'⟩
  · exact Or.inl (lt_trans h1 h2)
  · exact Or.inl (h2 ▸ h1)
  · exact Or.inl (h1 ▸ h2)
  · exact Or.inr ⟨h1.trans h2, strLtB_nlt_trans _ _ _ h1' h2'⟩

/-- Evaluation form of `titles_match` on concrete titles: with the
match count `M` and total length `T` computed (kernel-evaluable Nat
facts), the float comparison `threshold <= 2*M/T` becomes the
division-free `threshold * T ≤ 2 * M`. -/
theorem titles_match_eval (t1 t2 : String) (threshold : ℚ) (M T : Nat) (hT : T ≠ 0)
    (hM : matchSum (normalize_title t1).data (normalize_title t2).data
        (b2jMap (normalize_title t2).data) 0 (normalize_title t1).data.length 0
        (normalize_title t2).data.length = M)
    (hTl : (normalize_title t1).data.length + (normalize_title t2).data.length = T) :
    titles_match t1 t2 threshold = decide (threshold * T ≤ 2 * M) := by
  unfold titles_match ratioQ
  rw [hM, hTl, if_neg hT]
  apply decide_eq_decide.mpr
  rw [le_div_iff₀]
  exact_mod_cast Nat.cast_pos.mpr (Nat.pos_of_ne_zero hT)

theorem keyGeB_trans (p q r : Record) (h1 : keyGeB p q = true) (h2 : keyGeB q r = true) :
    keyGeB p r = true := by
  simp only [keyGeB, decide_eq_true_eq] at h1 h2 ⊢
  exact keyLe_trans _ _ _ h2 h1

theorem keyGeB_total (p q : Record) : keyGeB p q || keyGeB q p := by
  simp only [keyGeB]
  rcases keyLe_total (rkey q) (rkey p) with h | h
  · simp [h]
  · simp [h]

/-- `sortDesc` output is pairwise non-increasing in the sort key. -/
theorem sortDesc_sorted (l : List Record) :
    (sortDesc l).Pairwise (fun p q => keyLe (rkey q) (rkey p)) := by
  have h := List.sorted_mergeSort keyGeB_trans keyGeB_total l
  exact h.imp (fun hpq => by simpa [keyGeB] using hpq)

/-! ### Claims -/

/-- C3: for every record and keyword lists, `compute_relevance_score`
returns exactly `min(1, min(.20·primary_hits, .60) + min(.15·title_hits, .30)
+ min(.05·secondary_hits, .20) + (min(.01·citations, .10) if citations > 0 else 0))`,
where the hit counts are case-insensitive substring counts over
`title ++ " " ++ abstract` (title alone for the title hits), absent
fields default to empty/zero, and the result lies in `[0, 1]`. -/
theorem C3_relevance_score_formula (p : Record) (pk sk : List String) :
    compute_relevance_score p pk sk =
      min 1
        (min (((pk.filter (fun kw =>
              strContains (pyLowerS (p.title.getD "" ++ " " ++ p.abstract.getD "")) (pyLowerS kw))).length : ℚ) * 0.2) 0.6
          + min (((pk.filter (fun kw =>
              strContains (pyLowerS (p.title.getD "")) (pyLowerS kw))).length : ℚ) * 0.15) 0.3
          + min (((sk.filter (fun kw =>
              strContains (pyLowerS (p.title.getD "" ++ " " ++ p.abstract.getD "")) (pyLowerS kw))).length : ℚ) * 0.05) 0.2
          + (if p.citation_count.getD 0 > 0 then
              min ((p.citation_count.getD 0 : ℚ) * 0.01) 0.1 else 0)) ∧
    0 ≤ compute_relevance_score p pk sk ∧ compute_relevance_score p pk sk ≤ 1 := by
  have hA : (0:ℚ) ≤ min (((pk.filter (fun kw =>
      strContains (pyLowerS (p.title.getD "" ++ " " ++ p.abstract.getD "")) (pyLowerS kw))).length : ℚ) * 0.2) 0.6 :=
    le_min (by positivity) (by norm_num)
  have hB : (0:ℚ) ≤ min (((pk.filter (fun kw =>
      strContains (pyLowerS (p.title.getD "")) (pyLowerS kw))).length : ℚ) * 0.15) 0.3 :=
    le_min (by positivity) (by norm_num)
  have hC : (0:ℚ) ≤ min (((sk.filter (fun kw =>
      strContains (pyLowerS (p.title.getD "" ++ " " ++ p.abstract.getD "")) (pyLowerS kw))).length : ℚ) * 0.05) 0.2 :=
    le_min (by positivity) (by norm_num)
  refine ⟨?_, ?_, ?_⟩
  · unfold compute_relevance_score
    dsimp only
    rw [min_comm]
    by_cases hc : p.citation_count.getD 0 > 0
    · rw [if_pos hc, if_pos hc]
      congr 1
      ring
    · rw [if_neg hc, if_neg hc]
      congr 1
      ring
  · unfold compute_relevance_score
    dsimp only
    apply le_min
    · by_cases hc : p.citation_count.getD 0 > 0
      · rw [if_pos hc]
        have hcq : (0:ℚ) ≤ (p.citation_count.getD 0 : ℚ) := by
          exact_mod_cast hc.le
        have hD : (0:ℚ) ≤ min ((p.citation_count.getD 0 : ℚ) * 0.01) 0.1 :=
          le_min (mul_nonneg hcq (by norm_num)) (by norm_num)
        linarith
      · rw [if_neg hc]
        linarith
    · norm_num
  · unfold compute_relevance_score
    dsimp only
    exact min_le_right _ _

/-- C5: `classify_topic` returns "other" exactly when some
other-modality keyword occurs in the lowercased title, or at least two
occur in lowercased `title ++ " " ++ abstract`; in every other case it
returns "text". -/
theorem C5_classify_topic (p : Record) :
    (classify_topic p = "other" ↔
      (∃ kw ∈ OTHER_KEYWORDS, strContains (pyLowerS (p.title.getD "")) kw = true) ∨
        2 ≤ (OTHER_KEYWORDS.filter (fun kw =>
          strContains (pyLowerS (p.title.getD "") ++ " " ++ pyLowerS (p.abstract.getD "")) kw)).length) ∧
    (classify_topic p = "text" ↔
      ¬ ((∃ kw ∈ OTHER_KEYWORDS, strContains (pyLowerS (p.title.getD "")) kw = true) ∨
        2 ≤ (OTHER_KEYWORDS.filter (fun kw =>
          strContains (pyLowerS (p.title.getD "") ++ " " ++ pyLowerS (p.abstract.getD "")) kw)).length)) := by
  have hex : 1 ≤ (OTHER_KEYWORDS.filter (fun kw =>
      strContains (pyLowerS (p.title.getD "")) kw)).length ↔
      ∃ kw ∈ OTHER_KEYWORDS, strContains (pyLowerS (p.title.getD "")) kw = true := by
    rw [← List.countP_eq_length_filter]
    exact List.countP_pos_iff
  unfold classify_topic
  dsimp only
  by_cases h1 : 1 ≤ (OTHER_KEYWORDS.filter (fun kw =>
      strContains (pyLowerS (p.title.getD "")) kw)).length
  · rw [if_pos h1]
    constructor
    · simp only [true_iff]
      exact Or.inl (hex.mp h1)
    · constructor
      · intro hcon
        exact absurd hcon (by decide)
      · intro hcon
        exact absurd (Or.inl (hex.mp h1)) hcon
  · rw [if_neg h1]
    by_cases h2 : 2 ≤ (OTHER_KEYWORDS.filter (fun kw =>
        strContains (pyLowerS (p.title.getD "") ++ " " ++ pyLowerS (p.abstract.getD "")) kw)).length
    · rw [if_pos h2]
      constructor
      · simp only [true_iff]
        exact Or.inr h2
      · constructor
        · intro hcon
          exact absurd hcon (by decide)
        · intro hcon
          exact absurd (Or.inr h2) hcon
    · rw [if_neg h2]
      constructor
      · constructor
        · intro hcon
          exact absurd hcon (by decide)
        · intro hcon
          rcases hcon with hcon | hcon
          · exact absurd (hex.mpr hcon) h1
          · exact absurd hcon h2
      · simp only [true_iff]
        intro hcon
        rcases hcon with hcon | hcon
        · exact absurd (hex.mpr hcon) h1
        · exact absurd hcon h2

/-- C7 counterexample: `titles_match` is not symmetric.  At threshold
0.3 the pair ("diet", "tide") matches in one order only: the
Ratcliff/Obershelp recursion gives `ratio("diet","tide") = 1/2` but
`ratio("tide","diet") = 1/4`, because the first longest match chosen
depends on the argument order. -/
theorem C7_counterexample :
    titles_match "diet" "tide" (3/10) = true ∧
      titles_match "tide" "diet" (3/10) = false := by
  constructor
  · rw [titles_match_eval "diet" "tide" (3/10) 2 8 (by norm_num) (by decide) (by decide)]
    rw [decide_eq_true_eq]
    norm_num
  · rw [titles_match_eval "tide" "diet" (3/10) 1 8 (by norm_num) (by decide) (by decide)]
    rw [decide_eq_false_iff_not]
    norm_num

/-- C7 (amended): `titles_match` is reflexive — for every string and
every threshold ≤ 1, `titles_match(a, a, threshold)` holds, because
the similarity ratio of a normalized string with itself is 1.  The
symmetry half of the original claim is false (see the counterexample):
`SequenceMatcher.ratio` depends on the argument order. -/
theorem C7_titles_match_reflexive (a : String) (threshold : ℚ) (h : threshold ≤ 1) :
    titles_match a a threshold = true :=
  titles_match_refl a threshold h

theorem C7_witness :
    (17/20 : ℚ) ≤ 1 ∧
      titles_match "Attention Is All You Need" "Attention Is All You Need" (17/20) = true :=
  ⟨by norm_num, C7_titles_match_reflexive "Attention Is All You Need" (17/20) (by norm_num)⟩

/-- C4: two records whose titles normalize identically are merged into
a single record: the new record is compared against the accepted list
by `titles_match` (first match wins), the strictly richer record
(abstract length + author count) survives in the position of the first
occurrence keeping its own fields, and the other record's source
becomes the survivor's `also_found_in`; on equal or lower richness the
earlier record survives. -/
theorem C4_dedup_pair (r1 r2 : Record)
    (h : normalize_title (r1.title.getD "") = normalize_title (r2.title.getD "")) :
    deduplicate_papers [r1, r2] =
      if richness r2 > richness r1 then
        [{ r2 with also_found_in := some (r1.source.getD "") }]
      else
        [{ r1 with also_found_in := some (r2.source.getD "") }] := by
  unfold deduplicate_papers
  simp only [List.foldl]
  rw [show dedupStep [] r1 = [r1] from rfl]
  have htm : titles_match (r2.title.getD "") (r1.title.getD "") 0.85 = true := by
    unfold titles_match
    rw [← h, ratioQ_self, decide_eq_true_eq]
    norm_num
  unfold dedupStep
  rw [List.findIdx?_cons, if_pos htm]
  simp only [List.get?]
  by_cases hrich : richness r2 > richness r1
  · rw [if_pos hrich, if_pos hrich]
    rfl
  · rw [if_neg hrich, if_neg hrich]
    rfl

theorem C4_witness :
    (normalize_title ((mkRec "Tokenization Is More Than Compression" "a" "arxiv"
        "2025-01-15").title.getD "") =
      normalize_title ((mkRec "Tokenization is More Than Compression" "ab" "semantic_scholar"
        "2025-01-15").title.getD "")) ∧
    deduplicate_papers
        [mkRec "Tokenization Is More Than Compression" "a" "arxiv" "2025-01-15",
         mkRec "Tokenization is More Than Compression" "ab" "semantic_scholar" "2025-01-15"] =
      (if richness (mkRec "Tokenization is More Than Compression" "ab" "semantic_scholar"
            "2025-01-15") >
          richness (mkRec "Tokenization Is More Than Compression" "a" "arxiv" "2025-01-15") then
        [{ mkRec "Tokenization is More Than Compression" "ab" "semantic_scholar" "2025-01-15" with
            also_found_in := some ((mkRec "Tokenization Is More Than Compression" "a" "arxiv"
              "2025-01-15").source.getD "") }]
      else
        [{ mkRec "Tokenization Is More Than Compression" "a" "arxiv" "2025-01-15" with
            also_found_in := some ((mkRec "Tokenization is More Than Compression" "ab"
              "semantic_scholar" "2025-01-15").source.getD "") }]) :=
  ⟨by decide, C4_dedup_pair _ _ (by decide)⟩

/-- A backfill loop appends nothing when every record of the wanted
topic in its pool already has its title in the seen set. -/
theorem fillSection_id (cap : Nat) (want : String) :
    ∀ (pool : List Record) (sec : List Record) (seen : List (Option String)),
      (∀ p ∈ pool, p.topic = some want → p.title ∈ seen) →
      fillSection cap want pool sec seen = (sec, seen)
  | [], sec, seen, h => rfl
  | p :: ps, sec, seen, h => by
    rw [fillSection, if_neg]
    · exact fillSection_id cap want ps sec seen (fun q hq => h q (List.mem_cons_of_mem p hq))
    · intro hcon
      exact hcon.1 (h p (List.mem_cons_self p ps) hcon.2)

/-- `categorize_selections` equals the plain truncations: a backfill
loop can only run when its section is under cap, which means every
record of that topic/class is already in the section, so its title is
in the seen set and nothing is appended. -/
theorem categorize_eq_plain (papers : List Record) :
    categorize_selections papers =
      { text_papers := plainTextPapers papers,
        text_blogs := plainTextBlogs papers,
        other_papers := plainOtherPapers papers } := by
  unfold categorize_selections plainTextPapers plainTextBlogs plainOtherPapers
  dsimp only
  set A := papers.filter (fun p => isAcademic p) with hA
  set NA := papers.filter (fun p => !isAcademic p) with hNA
  set tp := (A.filter (fun p => p.topic == some "text")).take 5 with htp
  set tb := (NA.filter (fun p => p.topic == some "text")).take 3 with htb
  set op := (A.filter (fun p => p.topic == some "other")).take 3 with hop
  set seen := (tp ++ tb ++ op).map Record.title with hseen
  have hfill1 : (if tp.length < 5 then fillSection 5 "text" A tp seen else (tp, seen)) =
      (tp, seen) := by
    split
    next hlt =>
      apply fillSection_id
      intro q hq htopic
      have hlen : (A.filter (fun p => p.topic == some "text")).length < 5 := by
        rw [htp, List.length_take] at hlt
        omega
      have hq2 : q ∈ tp := by
        rw [htp, List.take_of_length_le (by omega)]
        exact List.mem_filter.mpr ⟨hq, by simp [htopic]⟩
      rw [hseen]
      exact List.mem_map.mpr
        ⟨q, List.mem_append.mpr (Or.inl (List.mem_append.mpr (Or.inl hq2))), rfl⟩
    next => rfl
  rw [hfill1]
  dsimp only
  have hfill2 : (if op.length < 3 then fillSection 3 "other" A op seen else (op, seen)) =
      (op, seen) := by
    split
    next hlt =>
      apply fillSection_id
      intro q hq htopic
      have hlen : (A.filter (fun p => p.topic == some "other")).length < 3 := by
        rw [hop, List.length_take] at hlt
        omega
      have hq2 : q ∈ op := by
        rw [hop, List.take_of_length_le (by omega)]
        exact List.mem_filter.mpr ⟨hq, by simp [htopic]⟩
      rw [hseen]
      exact List.mem_map.mpr ⟨q, List.mem_append.mpr (Or.inr hq2), rfl⟩
    next => rfl
  rw [hfill2]

/-- C10: the two backfill loops of `categorize_selections` never
append a record, so the result always equals the plain truncations:
the first up-to-5 academic text records, the first up-to-3
non-academic text records, and the first up-to-3 academic
other-modality records, each in input order — a section is under its
cap only when every record of its topic/class already sits in it and
is therefore in the seen-titles set. -/
theorem C10_backfill_never_appends (papers : List Record) :
    categorize_selections papers =
      { text_papers := plainTextPapers papers,
        text_blogs := plainTextBlogs papers,
        other_papers := plainOtherPapers papers } :=
  categorize_eq_plain papers

/-- C6 counterexample: the three sections are not always
title-disjoint.  Two records with the same title, one academic and one
not, both with topic "text", land in `text_papers` and `text_blogs`
respectively: the truncated comprehensions run before the seen-titles
set is built, which only guards the backfill loops. -/
theorem C6_counterexample :
    (some "T") ∈ (categorize_selections
        [mkCat "T" "arxiv" "text", mkCat "T" "web" "text"]).text_papers.map Record.title ∧
    (some "T") ∈ (categorize_selections
        [mkCat "T" "arxiv" "text", mkCat "T" "web" "text"]).text_blogs.map Record.title := by
  constructor <;> decide

/-- C6 (amended): when no two records of the input share a title —
which holds for the deduplicated lists the pipeline feeds to
`categorize_selections`, exact duplicates having been merged — the
three sections are pairwise disjoint in title.  For inputs with
repeated titles the original claim fails (see the counterexample). -/
theorem C6_sections_title_disjoint (papers : List Record)
    (hnd : (papers.map Record.title).Nodup) :
    (∀ t, ¬(t ∈ (categorize_selections papers).text_papers.map Record.title ∧
        t ∈ (categorize_selections papers).text_blogs.map Record.title)) ∧
    (∀ t, ¬(t ∈ (categorize_selections papers).text_papers.map Record.title ∧
        t ∈ (categorize_selections papers).other_papers.map Record.title)) ∧
    (∀ t, ¬(t ∈ (categorize_selections papers).text_blogs.map Record.title ∧
        t ∈ (categorize_selections papers).other_papers.map Record.title)) := by
  rw [categorize_eq_plain]
  dsimp only
  have hinj : ∀ p ∈ papers, ∀ q ∈ papers, p.title = q.title → p = q :=
    fun p hp q hq h => List.inj_on_of_nodup_map hnd hp hq h
  have memTP : ∀ x, x ∈ plainTextPapers papers →
      x ∈ papers ∧ isAcademic x = true ∧ x.topic = some "text" := by
    intro x hx
    have hx1 := List.mem_filter.mp (List.take_subset _ _ hx)
    have hx2 := List.mem_filter.mp hx1.1
    exact ⟨hx2.1, hx2.2, by simpa using hx1.2⟩
  have memTB : ∀ x, x ∈ plainTextBlogs papers →
      x ∈ papers ∧ isAcademic x = false ∧ x.topic = some "text" := by
    intro x hx
    have hx1 := List.mem_filter.mp (List.take_subset _ _ hx)
    have hx2 := List.mem_filter.mp hx1.1
    refine ⟨hx2.1, by simpa using hx2.2, by simpa using hx1.2⟩
  have memOP : ∀ x, x ∈ plainOtherPapers papers →
      x ∈ papers ∧ isAcademic x = true ∧ x.topic = some "other" := by
    intro x hx
    have hx1 := List.mem_filter.mp (List.take_subset _ _ hx)
    have hx2 := List.mem_filter.mp hx1.1
    exact ⟨hx2.1, hx2.2, by simpa using hx1.2⟩
  refine ⟨?_, ?_, ?_⟩
  · rintro t ⟨h1, h2⟩
    obtain ⟨p, hp, hpt⟩ := List.mem_map.mp h1
    obtain ⟨q, hq, hqt⟩ := List.mem_map.mp h2
    obtain ⟨hp1, hp2, hp3⟩ := memTP p hp
    obtain ⟨hq1, hq2, hq3⟩ := memTB q hq
    have : p = q := hinj p hp1 q hq1 (hpt.trans hqt.symm)
    rw [this, hq2] at hp2
    exact Bool.noConfusion hp2
  · rintro t ⟨h1, h2⟩
    obtain ⟨p, hp, hpt⟩ := List.mem_map.mp h1
    obtain ⟨q, hq, hqt⟩ := List.mem_map.mp h2
    obtain ⟨hp1, hp2, hp3⟩ := memTP p hp
    obtain ⟨hq1, hq2, hq3⟩ := memOP q hq
    have : p = q := hinj p hp1 q hq1 (hpt.trans hqt.symm)
    rw [this, hq3] at hp3
    simp at hp3
  · rintro t ⟨h1, h2⟩
    obtain ⟨p, hp, hpt⟩ := List.mem_map.mp h1
    obtain ⟨q, hq, hqt⟩ := List.mem_map.mp h2
    obtain ⟨hp1, hp2, hp3⟩ := memTB p hp
    obtain ⟨hq1, hq2, hq3⟩ := memOP q hq
    have : p = q := hinj p hp1 q hq1 (hpt.trans hqt.symm)
    rw [this, hq2] at hp2
    exact Bool.noConfusion hp2

theorem C6_witness :
    (([mkCat "T1" "arxiv" "text", mkCat "T2" "web" "text"].map Record.title).Nodup) ∧
    ¬((some "T1") ∈ (categorize_selections
        [mkCat "T1" "arxiv" "text", mkCat "T2" "web" "text"]).text_papers.map Record.title ∧
      (some "T1") ∈ (categorize_selections
        [mkCat "T1" "arxiv" "text", mkCat "T2" "web" "text"]).text_blogs.map Record.title) :=
  ⟨by decide,
    (C6_sections_title_disjoint [mkCat "T1" "arxiv" "text", mkCat "T2" "web" "text"]
      (by decide)).1 (some "T1")⟩

/-- A list already sorted by the descending key comparison is untouched
(`mergeSort` is stable on sorted input). -/
theorem sortDesc_of_sorted (l : List Record) (h : l.Pairwise (fun p q => keyGeB p q = true)) :
    sortDesc l = l :=
  List.mergeSort_of_sorted h

/-- C1: if after deduplication and scoring at least two non-academic
records survive the minimum-relevance filter and `max_items ≥ 2`, then
every record of the two reserved slots — the first two of the
non-academic survivors sorted descending by `(relevance_score,
published)` — is in `top`, and each of them dominates every other
non-academic survivor in that order. -/
theorem C1_reserved_slots (papers : List Record) (pk sk : List String) (mi : Nat) (mr : ℚ)
    (hn : 2 ≤ ((survivors papers pk sk mr).filter (fun p => !isAcademic p)).length)
    (hmi : 2 ≤ mi) :
    ∀ p ∈ (sortDesc ((survivors papers pk sk mr).filter (fun p => !isAcademic p))).take 2,
      p ∈ (filter_and_rank_with_rest papers pk sk mi mr).1 ∧
      ∀ q ∈ (sortDesc ((survivors papers pk sk mr).filter (fun p => !isAcademic p))).drop 2,
        keyLe (rkey q) (rkey p) := by
  intro p hp
  constructor
  · unfold filter_and_rank_with_rest
    dsimp only
    rw [List.take_append_eq_append_take]
    apply List.mem_append_left
    have hlen : ((sortDesc ((survivors papers pk sk mr).filter
        (fun p => !isAcademic p))).take 2).length ≤ mi := by
      rw [List.length_take]
      omega
    rw [List.take_of_length_le hlen]
    exact hp
  · intro q hq
    have hsorted := sortDesc_sorted ((survivors papers pk sk mr).filter (fun p => !isAcademic p))
    have hsplit : ((sortDesc ((survivors papers pk sk mr).filter
          (fun p => !isAcademic p))).take 2 ++
        (sortDesc ((survivors papers pk sk mr).filter
          (fun p => !isAcademic p))).drop 2).Pairwise (fun p q => keyLe (rkey q) (rkey p)) := by
      rw [List.take_append_drop]
      exact hsorted
    exact (List.pairwise_append.mp hsplit).2.2 p hp q hq

/-- C2 (amended): `filter_and_rank_with_rest` prepends the two
reserved non-academic records and re-sorts only the remaining records:
`top ++ rest` equals reserved followed by the sorted remainder, and
the remainder segment is sorted descending by `(relevance_score,
published)`.  The combined list is not re-sorted as a whole, so `top ++
rest` as a whole need not be sorted (see the counterexample). -/
theorem C2_reserved_prepended (papers : List Record) (pk sk : List String) (mi : Nat) (mr : ℚ) :
    (filter_and_rank_with_rest papers pk sk mi mr).1 ++
        (filter_and_rank_with_rest papers pk sk mi mr).2 =
      (sortDesc ((survivors papers pk sk mr).filter (fun p => !isAcademic p))).take 2 ++
        sortDesc (sortDesc ((survivors papers pk sk mr).filter (fun p => isAcademic p)) ++
          (sortDesc ((survivors papers pk sk mr).filter (fun p => !isAcademic p))).drop 2) ∧
    (sortDesc (sortDesc ((survivors papers pk sk mr).filter (fun p => isAcademic p)) ++
        (sortDesc ((survivors papers pk sk mr).filter (fun p => !isAcademic p))).drop 2)).Pairwise
      (fun p q => keyLe (rkey q) (rkey p)) := by
  constructor
  · unfold filter_and_rank_with_rest
    dsimp only
    exact List.take_append_drop mi _
  · exact sortDesc_sorted _

theorem score_empty (p : Record) (h : p.citation_count = none) :
    compute_relevance_score p [] [] = 0 := by
  unfold compute_relevance_score
  simp only [List.filter_nil, List.length_nil, Nat.cast_zero, zero_mul, h, Option.getD_none]
  norm_num

theorem classify_topic_score_update (p : Record) (s : Option ℚ) :
    classify_topic { p with relevance_score := s } = classify_topic p := rfl

theorem cex_tm1 : titles_match "bb" "aa" 0.85 = false := by
  rw [titles_match_eval "bb" "aa" 0.85 0 4 (by norm_num) (by decide) (by decide),
    decide_eq_false_iff_not]
  norm_num

theorem cex_tm2 : titles_match "cc" "aa" 0.85 = false := by
  rw [titles_match_eval "cc" "aa" 0.85 0 4 (by norm_num) (by decide) (by decide),
    decide_eq_false_iff_not]
  norm_num

theorem cex_tm3 : titles_match "cc" "bb" 0.85 = false := by
  rw [titles_match_eval "cc" "bb" 0.85 0 4 (by norm_num) (by decide) (by decide),
    decide_eq_false_iff_not]
  norm_num

theorem cex_dedup : deduplicate_papers [cexA, cexN1, cexN2] = [cexA, cexN1, cexN2] := by
  unfold deduplicate_papers
  simp only [List.foldl]
  rw [show dedupStep [] cexA = [cexA] from rfl]
  rw [show dedupStep [cexA] cexN1 = [cexA, cexN1] by
    unfold dedupStep
    rw [List.findIdx?_cons]
    rw [show titles_match (cexN1.title.getD "") (cexA.title.getD "") 0.85 = false from cex_tm1]
    simp [List.findIdx?_nil]]
  rw [show dedupStep [cexA, cexN1] cexN2 = [cexA, cexN1, cexN2] by
    unfold dedupStep
    rw [List.findIdx?_cons]
    rw [show titles_match (cexN2.title.getD "") (cexA.title.getD "") 0.85 = false from cex_tm2]
    rw [if_neg (by simp)]
    rw [List.findIdx?_cons]
    rw [show titles_match (cexN2.title.getD "") (cexN1.title.getD "") 0.85 = false from cex_tm3]
    simp [List.findIdx?_nil]]

theorem cex_scored : scoreStage [] [] [cexA, cexN1, cexN2] =
    [scored0 cexA, scored0 cexN1, scored0 cexN2] := by
  unfold scoreStage
  simp only [List.map]
  rw [score_empty cexA rfl, score_empty cexN1 rfl, score_empty cexN2 rfl]
  rw [classify_topic_score_update cexA (some 0), classify_topic_score_update cexN1 (some 0),
    classify_topic_score_update cexN2 (some 0)]
  rw [show classify_topic cexA = "text" from by decide,
    show classify_topic cexN1 = "text" from by decide,
    show classify_topic cexN2 = "text" from by decide]
  rfl

theorem cex_surv : survivors [cexA, cexN1, cexN2] [] [] 0 =
    [scored0 cexA, scored0 cexN1, scored0 cexN2] := by
  unfold survivors
  rw [cex_dedup, cex_scored]
  decide

theorem cex_pipeline : filter_and_rank_with_rest [cexA, cexN1, cexN2] [] [] 10 0 =
    ([scored0 cexN1, scored0 cexN2, scored0 cexA], []) := by
  unfold filter_and_rank_with_rest
  dsimp only
  rw [cex_surv]
  rw [show ([scored0 cexA, scored0 cexN1, scored0 cexN2].filter (fun p => isAcademic p)) =
      [scored0 cexA] from by decide]
  rw [show ([scored0 cexA, scored0 cexN1, scored0 cexN2].filter (fun p => !isAcademic p)) =
      [scored0 cexN1, scored0 cexN2] from by decide]
  rw [sortDesc_of_sorted [scored0 cexA] (by decide)]
  rw [sortDesc_of_sorted [scored0 cexN1, scored0 cexN2] (by decide)]
  rw [show ([scored0 cexA] ++ [scored0 cexN1, scored0 cexN2].drop 2) = [scored0 cexA] from by decide]
  rw [sortDesc_of_sorted [scored0 cexA] (by decide)]
  decide

/-- C2 counterexample: on three surviving records — one academic
scoring equal to two non-academic ones but published latest — the
reserved non-academic pair is prepended and the academic record
follows, so `top ++ rest` is not sorted descending by
`(relevance_score, published)`. -/
theorem C2_counterexample :
    ¬ (((filter_and_rank_with_rest [cexA, cexN1, cexN2] [] [] 10 0).1 ++
        (filter_and_rank_with_rest [cexA, cexN1, cexN2] [] [] 10 0).2).Pairwise
      (fun p q => keyLe (rkey q) (rkey p))) := by
  rw [cex_pipeline]
  intro hpw
  have h := (List.pairwise_cons.mp ((List.pairwise_cons.mp hpw).2)).1 (scored0 cexA)
    (List.mem_cons_self _ _)
  exact absurd h (by decide)

theorem C1_witness :
    2 ≤ ((survivors [cexA, cexN1, cexN2] [] [] 0).filter (fun p => !isAcademic p)).length ∧
    2 ≤ 10 ∧
    scored0 cexN1 ∈ (filter_and_rank_with_rest [cexA, cexN1, cexN2] [] [] 10 0).1 := by
  have h1 : 2 ≤ ((survivors [cexA, cexN1, cexN2] [] [] 0).filter
      (fun p => !isAcademic p)).length := by
    rw [cex_surv]
    decide
  have hmem : scored0 cexN1 ∈ (sortDesc ((survivors [cexA, cexN1, cexN2] [] [] 0).filter
      (fun p => !isAcademic p))).take 2 := by
    rw [cex_surv]
    rw [show ([scored0 cexA, scored0 cexN1, scored0 cexN2].filter (fun p => !isAcademic p)) =
        [scored0 cexN1, scored0 cexN2] from by decide]
    rw [sortDesc_of_sorted [scored0 cexN1, scored0 cexN2] (by decide)]
    decide
  exact ⟨h1, by omega,
    (C1_reserved_slots [cexA, cexN1, cexN2] [] [] 10 0 h1 (by omega) (scored0 cexN1) hmem).1⟩

/-! ### C8: totality of the pipelines -/

/-- `sortDesc` permutes its input, so preserves membership. -/
theorem mem_sortDesc {q : Record} {l : List Record} : q ∈ sortDesc l ↔ q ∈ l := by
  unfold sortDesc
  exact (List.mergeSort_perm l keyGeB).mem_iff

theorem getScoreItem_some (p : Record) (q : ℚ) (h : p.relevance_score = some q) :
    getScoreItem p = Except.ok q := by
  unfold getScoreItem
  rw [h]

theorem checkKeysE_ok : ∀ l : List Record, (∀ p ∈ l, p.relevance_score.isSome) →
    checkKeysE l = Except.ok ()
  | [], _ => rfl
  | p :: ps, h => by
    obtain ⟨q, hq⟩ := Option.isSome_iff_exists.mp (h p (List.mem_cons_self p ps))
    unfold checkKeysE
    rw [getScoreItem_some p q hq]
    exact checkKeysE_ok ps (fun r hr => h r (List.mem_cons_of_mem p hr))

theorem filterScoresE_ok (mr : ℚ) : ∀ l : List Record,
    (∀ p ∈ l, p.relevance_score.isSome) →
    filterScoresE mr l =
      Except.ok (l.filter (fun p => decide (p.relevance_score.getD 0 ≥ mr)))
  | [], _ => rfl
  | p :: ps, h => by
    obtain ⟨q, hq⟩ := Option.isSome_iff_exists.mp (h p (List.mem_cons_self p ps))
    have hrest := filterScoresE_ok mr ps (fun r hr => h r (List.mem_cons_of_mem p hr))
    unfold filterScoresE
    rw [getScoreItem_some p q hq, hrest, List.filter_cons, hq]
    dsimp only [Option.getD_some]
    by_cases hc : q ≥ mr
    · simp [hc]
    · simp [hc]

/-- After the scoring map of `filter_and_rank` every record carries a
relevance score. -/
theorem scored_isSome (pk sk : List String) (l : List Record) :
    ∀ p ∈ l.map (fun r =>
      { r with relevance_score := some (compute_relevance_score r pk sk) }),
      p.relevance_score.isSome := by
  intro p hp
  obtain ⟨r, _, rfl⟩ := List.mem_map.mp hp
  rfl

/-- After `scoreStage` every record carries a relevance score. -/
theorem scoreStage_isSome (pk sk : List String) (l : List Record) :
    ∀ p ∈ scoreStage pk sk l, p.relevance_score.isSome := by
  intro p hp
  obtain ⟨r, _, rfl⟩ := List.mem_map.mp hp
  rfl

theorem filter_and_rank_E_ok (papers : List Record) (pk sk : List String)
    (mi : Nat) (mr : ℚ) :
    filter_and_rank_E papers pk sk mi mr =
      Except.ok (filter_and_rank papers pk sk mi mr) := by
  unfold filter_and_rank_E filter_and_rank
  dsimp only
  rw [filterScoresE_ok mr _ (scored_isSome pk sk (deduplicate_papers papers))]
  dsimp only
  rw [checkKeysE_ok _ (fun p hp =>
    scored_isSome pk sk (deduplicate_papers papers) p (List.mem_of_mem_filter hp))]

theorem filter_and_rank_with_rest_E_ok (papers : List Record) (pk sk : List String)
    (mi : Nat) (mr : ℚ) :
    filter_and_rank_with_rest_E papers pk sk mi mr =
      Except.ok (filter_and_rank_with_rest papers pk sk mi mr) := by
  have hsc := scoreStage_isSome pk sk (deduplicate_papers papers)
  have hsurv : ∀ p ∈ (scoreStage pk sk (deduplicate_papers papers)).filter
      (fun p => decide (p.relevance_score.getD 0 ≥ mr)), p.relevance_score.isSome :=
    fun p hp => hsc p (List.mem_of_mem_filter hp)
  unfold filter_and_rank_with_rest_E filter_and_rank_with_rest survivors
  dsimp only
  rw [filterScoresE_ok mr _ hsc]
  dsimp only
  rw [checkKeysE_ok _ (fun p hp => hsurv p (List.mem_of_mem_filter hp))]
  dsimp only
  rw [checkKeysE_ok _ (fun p hp => hsurv p (List.mem_of_mem_filter hp))]
  dsimp only
  rw [checkKeysE_ok _ (fun p hp => by
    rcases List.mem_append.mp hp with h | h
    · exact hsurv p (List.mem_of_mem_filter (mem_sortDesc.mp h))
    · exact hsurv p (List.mem_of_mem_filter (mem_sortDesc.mp (List.mem_of_mem_drop h))))]

/-- C8: the core never raises.  Every optional-field access in
`titles_match`, `deduplicate_papers`, `compute_relevance_score`,
`classify_topic` and `categorize_selections` is a defaulting `.get`,
so those functions are total by construction; the only raising
subscripts are the `p["relevance_score"]` reads in `filter_and_rank`
and `filter_and_rank_with_rest`, and their `Except` models always
return `Except.ok` with the pure result.  Absent optional fields
behave exactly as the empty/zero defaults: replacing them by those
defaults changes neither the relevance score nor the topic. -/
theorem C8_no_exceptions (papers : List Record) (pk sk : List String)
    (max_items : Nat) (min_relevance : ℚ) (p : Record) :
    filter_and_rank_E papers pk sk max_items min_relevance =
      Except.ok (filter_and_rank papers pk sk max_items min_relevance) ∧
    filter_and_rank_with_rest_E papers pk sk max_items min_relevance =
      Except.ok (filter_and_rank_with_rest papers pk sk max_items min_relevance) ∧
    compute_relevance_score (withDefaults p) pk sk = compute_relevance_score p pk sk ∧
    classify_topic (withDefaults p) = classify_topic p :=
  ⟨filter_and_rank_E_ok papers pk sk max_items min_relevance,
   filter_and_rank_with_rest_E_ok papers pk sk max_items min_relevance,
   rfl, rfl⟩

/-! ### C9: the core writes only the derived fields -/

theorem dedupStep_frame {P : List Record} {unique : List Record} {paper : Record}
    (hu : ∀ q ∈ unique, ∃ p ∈ P, baseFields q = baseFields p)
    (hp : ∃ p ∈ P, baseFields paper = baseFields p) :
    ∀ q ∈ dedupStep unique paper, ∃ p ∈ P, baseFields q = baseFields p := by
  intro q hq
  unfold dedupStep at hq
  split at hq
  · split at hq
    · rename_i i hfind existing hget
      split at hq
      · rcases List.mem_or_eq_of_mem_set hq with h | h
        · exact hu q h
        · subst h
          exact hp
      · rcases List.mem_or_eq_of_mem_set hq with h | h
        · exact hu q h
        · subst h
          exact hu existing (List.get?_mem hget)
    · exact hu q hq
  · rcases List.mem_append.mp hq with h | h
    · exact hu q h
    · rw [List.mem_singleton] at h
      subst h
      exact hp

theorem foldl_dedup_frame (P : List Record) : ∀ (l acc : List Record),
    (∀ q ∈ acc, ∃ p ∈ P, baseFields q = baseFields p) →
    (∀ r ∈ l, ∃ p ∈ P, baseFields r = baseFields p) →
    ∀ q ∈ l.foldl dedupStep acc, ∃ p ∈ P, baseFields q = baseFields p
  | [], _, hacc, _ => hacc
  | r :: rs, acc, hacc, hl => by
    rw [List.foldl_cons]
    exact foldl_dedup_frame P rs (dedupStep acc r)
      (dedupStep_frame hacc (hl r (List.mem_cons_self r rs)))
      (fun x hx => hl x (List.mem_cons_of_mem r hx))

/-- Every output of `deduplicate_papers` agrees with some input record
on all seven §3 input fields. -/
theorem dedup_frame (papers : List Record) :
    ∀ q ∈ deduplicate_papers papers, ∃ p ∈ papers, baseFields q = baseFields p :=
  foldl_dedup_frame papers papers [] (by simp) (fun r hr => ⟨r, hr, rfl⟩)

/-- Every survivor of dedup + scoring + min-relevance filtering agrees
with some input record on all seven §3 input fields. -/
theorem survivors_frame (papers : List Record) (pk sk : List String) (mr : ℚ) :
    ∀ q ∈ survivors papers pk sk mr, ∃ p ∈ papers, baseFields q = baseFields p := by
  intro q hq
  unfold survivors scoreStage at hq
  obtain ⟨r, hr, rfl⟩ := List.mem_map.mp (List.mem_of_mem_filter hq)
  exact dedup_frame papers r hr

theorem with_rest_mem (papers : List Record) (pk sk : List String) (mi : Nat) (mr : ℚ)
    (q : Record)
    (h : q ∈ (filter_and_rank_with_rest papers pk sk mi mr).1 ++
         (filter_and_rank_with_rest papers pk sk mi mr).2) :
    q ∈ survivors papers pk sk mr := by
  unfold filter_and_rank_with_rest at h
  dsimp only at h
  rw [List.take_append_drop] at h
  rcases List.mem_append.mp h with h | h
  · exact List.mem_of_mem_filter (mem_sortDesc.mp (List.mem_of_mem_take h))
  · rcases List.mem_append.mp (mem_sortDesc.mp h) with h | h
    · exact List.mem_of_mem_filter (mem_sortDesc.mp h)
    · exact List.mem_of_mem_filter (mem_sortDesc.mp (List.mem_of_mem_drop h))

theorem fillSection_mem (cap : Nat) (want : String) :
    ∀ (l sec : List Record) (seen : List (Option String)) (q : Record),
      q ∈ (fillSection cap want l sec seen).1 → q ∈ l ∨ q ∈ sec
  | [], _, _, _, h => Or.inr h
  | p :: ps, sec, seen, q, h => by
    unfold fillSection at h
    dsimp only at h
    split at h
    · split at h
      · dsimp only at h
        rcases List.mem_append.mp h with h | h
        · exact Or.inr h
        · rw [List.mem_singleton] at h
          subst h
          exact Or.inl (List.mem_cons_self _ _)
      · rcases fillSection_mem cap want ps (sec ++ [p]) _ q h with h | h
        · exact Or.inl (List.mem_cons_of_mem p h)
        · rcases List.mem_append.mp h with h | h
          · exact Or.inr h
          · rw [List.mem_singleton] at h
            subst h
            exact Or.inl (List.mem_cons_self _ _)
    · rcases fillSection_mem cap want ps sec seen q h with h | h
      · exact Or.inl (List.mem_cons_of_mem p h)
      · exact Or.inr h

theorem fillChoice_mem (c : Prop) [Decidable c] (cap : Nat) (want : String)
    (l sec : List Record) (seen seen2 : List (Option String)) (q : Record)
    (h : q ∈ (if c then fillSection cap want l sec seen else (sec, seen2)).1) :
    q ∈ l ∨ q ∈ sec := by
  split at h
  · exact fillSection_mem cap want l sec seen q h
  · exact Or.inr h

/-- Every record placed in a section of `categorize_selections` is an
input record, unchanged. -/
theorem categorize_mem (papers : List Record) (q : Record) :
    (q ∈ (categorize_selections papers).text_papers → q ∈ papers) ∧
    (q ∈ (categorize_selections papers).text_blogs → q ∈ papers) ∧
    (q ∈ (categorize_selections papers).other_papers → q ∈ papers) := by
  unfold categorize_selections
  dsimp only
  refine ⟨fun h => ?_, fun h => ?_, fun h => ?_⟩
  · rcases fillChoice_mem _ _ _ _ _ _ _ q h with h | h
    · exact List.mem_of_mem_filter h
    · exact List.mem_of_mem_filter (List.mem_of_mem_filter (List.mem_of_mem_take h))
  · exact List.mem_of_mem_filter (List.mem_of_mem_filter (List.mem_of_mem_take h))
  · rcases fillChoice_mem _ _ _ _ _ _ _ q h with h | h
    · exact List.mem_of_mem_filter h
    · exact List.mem_of_mem_filter (List.mem_of_mem_filter (List.mem_of_mem_take h))

/-- C9: the core writes only `relevance_score`, `topic` and
`also_found_in`.  Every record returned by `deduplicate_papers`,
`filter_and_rank` or `filter_and_rank_with_rest` agrees with some
input record on the seven §3 input fields (title, authors, abstract,
url, published, source, citation_count), and `categorize_selections`
returns its input records entirely unchanged. -/
theorem C9_frame_base_fields (papers : List Record) (pk sk : List String)
    (max_items : Nat) (min_relevance : ℚ) (q : Record) :
    (q ∈ deduplicate_papers papers → ∃ p ∈ papers, baseFields q = baseFields p) ∧
    (q ∈ filter_and_rank papers pk sk max_items min_relevance →
      ∃ p ∈ papers, baseFields q = baseFields p) ∧
    (q ∈ (filter_and_rank_with_rest papers pk sk max_items min_relevance).1 ++
         (filter_and_rank_with_rest papers pk sk max_items min_relevance).2 →
      ∃ p ∈ papers, baseFields q = baseFields p) ∧
    (q ∈ (categorize_selections papers).text_papers ++
         (categorize_selections papers).text_blogs ++
         (categorize_selections papers).other_papers → q ∈ papers) := by
  refine ⟨fun h => dedup_frame papers q h, fun h => ?_, fun h => ?_, fun h => ?_⟩
  · unfold filter_and_rank at h
    dsimp only at h
    obtain ⟨r, hr, rfl⟩ := List.mem_map.mp
      (List.mem_of_mem_filter (mem_sortDesc.mp (List.mem_of_mem_take h)))
    exact dedup_frame papers r hr
  · exact survivors_frame papers pk sk min_relevance q
      (with_rest_mem papers pk sk max_items min_relevance q h)
  · rcases List.mem_append.mp h with h | h
    · rcases List.mem_append.mp h with h | h
      · exact (categorize_mem papers q).1 h
      · exact (categorize_mem papers q).2.1 h
    · exact (categorize_mem papers q).2.2 h

theorem C9_witness :
    ∃ p ∈ [mkRec "a" "b" "arxiv" "2025-01-01"],
      baseFields (mkRec "a" "b" "arxiv" "2025-01-01") = baseFields p :=
  (C9_frame_base_fields [mkRec "a" "b" "arxiv" "2025-01-01"] [] [] 10 0
    (mkRec "a" "b" "arxiv" "2025-01-01")).1 (by decide)
